import Mathlib

/-!
# KV-cache bookkeeping in the llama.cpp tutorial programs

A shallow embedding of the cache and batch bookkeeping of the demonstration
programs `src/6/main.cpp` (two sequences decoded in one batch) and
`src/7/main.cpp` (chat loop with a sliding-window KV cache).

Conventions.

* C `int` and its aliases `llama_pos`, `llama_token` and `llama_seq_id` are
  embedded as `Int`.  Signed overflow is undefined behaviour in C++, so the
  embedding is exact on every execution in which all values stay inside the
  `int` range; `handle_kv_cache_overflow_int_range` shows this for the eviction
  routine.
* The inference backend (llama.cpp) is not part of the repository.  The calls
  the programs make to it are recorded, in order, in the `calls` field of the
  context; the few backend functions whose meaning matters are modelled from
  the interface contract of the specification and are marked as such.
* A batch has the fixed number of slots it was allocated with.  Adding an entry
  to a full batch fails (`BatchFull`; llama.cpp aborts the process), which the
  embedding renders as `none`: the program has stopped and has no further
  state.
* The answers of the outside world (tokeniser output, sampled tokens, the return
  value of `llama_decode`) are inputs of the embedding.
-/

namespace LlamaLearn

/-- One slot of a `llama_batch`: the token, its position in the owning
sequence, the sequence ids it belongs to and the emit-logits flag. -/
structure BatchEntry where
  token : Int
  pos : Int
  seq_id : List Int
  logits : Bool
deriving DecidableEq

/-- A `llama_batch`: the number of slots it was allocated with and the ordered
list of its `n_tokens` filled slots. -/
structure llama_batch where
  capacity : Nat
  entries : List BatchEntry
deriving DecidableEq

/-- Modelled from the spec: `llama_batch_init (n_tokens, 0, 1)` allocates an
empty batch with `n_tokens` slots. -/
def llama_batch_init (n_tokens : Nat) : llama_batch :=
  { capacity := n_tokens, entries := [] }

/-- Modelled from the spec: `common_batch_clear` (llama.cpp `common`, not in the
repository) resets the batch to zero entries and keeps its allocated slots. -/
def common_batch_clear (batch : llama_batch) : llama_batch :=
  { batch with entries := [] }

/-- Modelled from the spec: `common_batch_add` (llama.cpp `common`, not in the
repository) appends one entry after the entries already in the batch, and
fails (`BatchFull`, here `none`) when the batch is already at its allocated
capacity. -/
def common_batch_add (batch : llama_batch) (id : Int) (pos : Int)
    (seq_ids : List Int) (logits : Bool) : Option llama_batch :=
  if batch.entries.length < batch.capacity then
    some { batch with
      entries := batch.entries ++
        [{ token := id, pos := pos, seq_id := seq_ids, logits := logits }] }
  else none

/-- One resident entry of the backend KV cache: the position it occupies, the
sequence it belongs to, and its content (identified by the token it was
computed for). -/
structure KvCell where
  pos : Int
  seq_id : Int
  token : Int
deriving DecidableEq

/-- The calls a program makes to the backend, as they are recorded in order.
A `decode` records the entries submitted and the value returned; a `sample`
records the index asked for and the entries of the batch whose outputs it
reads. -/
inductive BackendCall where
  | seq_rm (seq_id : Int) (p0 p1 : Int)
  | seq_add (seq_id : Int) (p0 p1 : Int) (delta : Int)
  | decode (batch : List BatchEntry) (ret : Int)
  | sample (idx : Int) (batch : List BatchEntry)
deriving DecidableEq

/-- The backend context: its cache (`llama_get_memory`), the entries of the
most recent successful `llama_decode` (whose outputs the sampler reads), and
the record of every call received so far, oldest first. -/
structure llama_context where
  memory : List KvCell
  decoded : List BatchEntry
  calls : List BackendCall
deriving DecidableEq

/-- Modelled from the spec: membership of a position in the half-open range
`[p0, p1)` of a cache command, where a negative endpoint is open-ended
(`p0 < 0` means from the start, `p1 < 0` means to the end). -/
def pos_in_range (p0 p1 pos : Int) : Bool :=
  decide ((if p0 < 0 then 0 else p0) ≤ pos) && (decide (p1 < 0) || decide (pos < p1))

/-- Modelled from the spec: `llama_memory_seq_rm` (`cache_remove`) deletes the
cached entries of sequence `seq_id` whose position lies in `[p0, p1)`. -/
def llama_memory_seq_rm (ctx : llama_context) (seq_id : Int) (p0 p1 : Int) :
    llama_context :=
  { ctx with
    memory := ctx.memory.filter (fun c => !(decide (c.seq_id = seq_id) && pos_in_range p0 p1 c.pos))
    calls := ctx.calls ++ [BackendCall.seq_rm seq_id p0 p1] }

/-- Modelled from the spec: `llama_memory_seq_add` (`cache_shift`) renumbers the
cached entries of sequence `seq_id` whose position lies in `[p0, p1)` by
`delta`, keeping their content. -/
def llama_memory_seq_add (ctx : llama_context) (seq_id : Int) (p0 p1 delta : Int) :
    llama_context :=
  { ctx with
    memory := ctx.memory.map (fun c =>
      if decide (c.seq_id = seq_id) && pos_in_range p0 p1 c.pos then { c with pos := c.pos + delta }
      else c)
    calls := ctx.calls ++ [BackendCall.seq_add seq_id p0 p1 delta] }

/-- Modelled from the spec: `llama_decode` submits a batch; `ret` is the value
the backend returns.  On success (`ret = 0`) every entry becomes resident at its
position for each of its sequences and the batch becomes the one whose outputs
can be sampled; on failure the cache is left as it was. -/
def llama_decode (ctx : llama_context) (batch : llama_batch) (ret : Int) : llama_context :=
  if ret = 0 then
    { memory := ctx.memory ++
        batch.entries.flatMap
          (fun e => e.seq_id.map (fun s => { pos := e.pos, seq_id := s, token := e.token }))
      decoded := batch.entries
      calls := ctx.calls ++ [BackendCall.decode batch.entries ret] }
  else
    { ctx with calls := ctx.calls ++ [BackendCall.decode batch.entries ret] }

/-- Modelled from the spec: the output a sampler index addresses.  Only entries
with the emit-logits flag have an output.  A negative index counts emitting
entries from the end of the batch backward (`-1` is the last emitting entry,
`-2` the one before it); a non-negative index is a batch index and is valid only
when that entry is emitting. -/
def output_at (batch : List BatchEntry) (idx : Int) : Option BatchEntry :=
  let outputs := batch.filter (fun e => e.logits)
  if idx < 0 then
    if (outputs.length : Int) + idx < 0 then none
    else outputs[((outputs.length : Int) + idx).toNat]?
  else
    match batch[idx.toNat]? with
    | some e => if e.logits then some e else none
    | none => none

/-- Modelled from the spec: `llama_sampler_sample (sampler, ctx, idx)` reads the
output `idx` of the most recently decoded batch, that is
`output_at ctx.decoded idx`.  The call is recorded with the batch it reads
from; the token it returns is supplied by the caller of the embedding. -/
def llama_sampler_sample (ctx : llama_context) (idx : Int) : llama_context :=
  { ctx with calls := ctx.calls ++ [BackendCall.sample idx ctx.decoded] }

/-- The latest token of sequence `s` in a batch: the last entry that belongs
to `s`. -/
def latest_of_seq (batch : List BatchEntry) (s : Int) : Option BatchEntry :=
  (batch.filter (fun e => decide (s ∈ e.seq_id))).getLast?

/-- `handle_kv_cache_overflow (ctx, n_past, n_keep)` of `src/7/main.cpp`.
`n_past` is passed by reference: the second component is its value on return.
`/` on C `int` truncates toward zero (`Int.tdiv`).  The local `n_ctx` is read
but never used, and the two `printf` calls have no effect on the state. -/
def handle_kv_cache_overflow (ctx : llama_context) (n_past n_keep : Int) : llama_context × Int :=
  let n_discard := Int.tdiv (n_past - n_keep) 4
  let ctx := llama_memory_seq_rm ctx 0 n_keep (n_keep + n_discard)
  let ctx := llama_memory_seq_add ctx 0 (n_keep + n_discard) n_past (-n_discard)
  (ctx, n_past - n_discard)

/-- The loop `for (i = 0; i < toks.size(); ++i)
common_batch_add (batch, toks[i], n_past++, seq_ids, i == toks.size() - 1)`
used for every prefill in `src/6` and `src/7`: returns the batch and the
counter after the loop, or `none` when an add finds the batch full. -/
def prefill_loop (batch : llama_batch) (toks : List Int) (n_past : Int)
    (seq_ids : List Int) : Option (llama_batch × Int) :=
  (List.range toks.length).foldl
    (fun acc i =>
      match acc with
      | none => none
      | some s =>
        match common_batch_add s.1 (toks.getD i 0) s.2 seq_ids
            (decide (i = toks.length - 1)) with
        | none => none
        | some b => some (b, s.2 + 1))
    (some (batch, n_past))

/-- The overflow check made before a batch of `n_incoming` tokens is built
(lines 88-91 and 121-124 of `src/7/main.cpp`):
`if (n_past + n_incoming > n_ctx) handle_kv_cache_overflow (ctx, n_past, n_keep);`.
Returns the context and the value of `n_past` after the check. -/
def overflow_check (ctx : llama_context) (n_ctx n_past n_keep n_incoming : Int) :
    llama_context × Int :=
  if n_past + n_incoming > n_ctx then handle_kv_cache_overflow ctx n_past n_keep
  else (ctx, n_past)

/-- Control point of `main` in `src/7/main.cpp`. -/
inductive Pc7 where
  | awaiting_input
  | generating (i : Nat)
  | exited (code : Int)
deriving DecidableEq

/-- The variables of `main` in `src/7/main.cpp` that the cache bookkeeping
uses, with the control point reached. -/
structure State7 where
  ctx : llama_context
  n_ctx : Int
  n_past : Int
  n_keep : Int
  batch : llama_batch
  pc : Pc7
deriving DecidableEq

/-- What the outside world supplies to one step of the chat loop of `src/7`:
either a tokenised user line with the return value of the `llama_decode` that
follows it, or a sampled token with the return value of the `llama_decode` that
follows it. -/
inductive Input7 where
  | user (input_tokens : List Int) (decode_ret : Int)
  | sampled (id : Int) (decode_ret : Int)

/-- Lines 35-76 of `src/7/main.cpp`: initialisation and the system-prompt
prefill into the batch allocated by `llama_batch_init (n_ctx, 0, 1)`, which has
`n_ctx = 256` slots.  `prompt_toks` is the tokenised
system prompt and `decode_ret` the return value of the first `llama_decode`. -/
def main7_start (prompt_toks : List Int) (decode_ret : Int) : Option State7 :=
  let n_ctx : Int := 256
  let n_past : Int := 0
  let ctx : llama_context := { memory := [], decoded := [], calls := [] }
  let batch : llama_batch := llama_batch_init n_ctx.toNat
  let n_keep : Int := (prompt_toks.length : Int)
  let batch := common_batch_clear batch
  match prefill_loop batch prompt_toks n_past [0] with
  | none => none
  | some filled =>
    let ctx := llama_decode ctx filled.1 decode_ret
    some { ctx := ctx, n_ctx := n_ctx, n_past := filled.2, n_keep := n_keep, batch := filled.1,
           pc := if decode_ret ≠ 0 then Pc7.exited 1 else Pc7.awaiting_input }

/-- Lines 87-101 of `src/7/main.cpp`: the overflow check for
`(int) input_tokens.size ()` incoming tokens, the prefill of the user input and
its `llama_decode`. -/
def user_turn7 (st : State7) (input_tokens : List Int) (decode_ret : Int) : Option State7 :=
  let evicted := overflow_check st.ctx st.n_ctx st.n_past st.n_keep (input_tokens.length : Int)
  let batch := common_batch_clear st.batch
  match prefill_loop batch input_tokens evicted.2 [0] with
  | none => none
  | some filled =>
    let ctx := llama_decode evicted.1 filled.1 decode_ret
    some { st with
      ctx := ctx, n_past := filled.2, batch := filled.1,
      pc := if decode_ret ≠ 0 then Pc7.exited 1 else Pc7.generating 0 }

/-- Lines 106-131 of `src/7/main.cpp`: one pass through the body of the
generation loop at loop index `i`, where `id` is the token the sampler
returned. -/
def generate_step7 (is_eog : Int → Bool) (st : State7) (i : Nat) (id : Int)
    (decode_ret : Int) : Option State7 :=
  let ctx := llama_sampler_sample st.ctx (-1)
  if is_eog id then
    let batch := common_batch_clear st.batch
    match common_batch_add batch id st.n_past [0] false with
    | none => none
    | some batch =>
      let ctx := llama_decode ctx batch decode_ret
      some { st with ctx := ctx, n_past := st.n_past + 1, batch := batch,
                     pc := Pc7.awaiting_input }
  else
    let batch := common_batch_clear st.batch
    let evicted := overflow_check ctx st.n_ctx st.n_past st.n_keep 1
    match common_batch_add batch id evicted.2 [0] true with
    | none => none
    | some batch =>
      let ctx := llama_decode evicted.1 batch decode_ret
      some { st with
        ctx := ctx, n_past := evicted.2 + 1, batch := batch,
        pc := if decode_ret ≠ 0 then Pc7.exited 1
              else if i + 1 < 2048 then Pc7.generating (i + 1) else Pc7.awaiting_input }

/-- One step of the chat loop of `src/7`: at the top of `while (true)` a user
line is consumed, inside the generation loop a sampled token is consumed.  An
input that does not fit the control point, and any input after `return`, leaves
the state as it is. -/
def step7 (is_eog : Int → Bool) (st : State7) (inp : Input7) : Option State7 :=
  match st.pc, inp with
  | Pc7.awaiting_input, Input7.user input_tokens decode_ret => user_turn7 st input_tokens decode_ret
  | Pc7.generating i, Input7.sampled id decode_ret => generate_step7 is_eog st i id decode_ret
  | _, _ => some st

/-- The chat loop of `src/7` run from state `st` on a finite sequence of
inputs. -/
def run7 (is_eog : Int → Bool) : State7 → List Input7 → Option State7
  | st, [] => some st
  | st, inp :: rest =>
    match step7 is_eog st inp with
    | none => none
    | some st' => run7 is_eog st' rest

/-- The program `src/7/main.cpp` run on a finite sequence of inputs: the state
at the observable point reached after the last of them, or `none` when an add
found the batch full on the way. -/
def main7 (is_eog : Int → Bool) (prompt_toks : List Int) (decode_ret : Int)
    (inputs : List Input7) : Option State7 :=
  match main7_start prompt_toks decode_ret with
  | none => none
  | some st => run7 is_eog st inputs

/-- The batches submitted to `llama_decode` in a record of backend calls. -/
def decoded_batches : List BackendCall → List (List BatchEntry)
  | [] => []
  | BackendCall.decode batch _ :: rest => batch :: decoded_batches rest
  | _ :: rest => decoded_batches rest

/-- What the outside world supplies to `src/6/main.cpp`: the two tokenised
prompts, the return value of the `k`-th `llama_decode` call (the prefill is call
`0`), the token the sampler returns when it reads a given output of the `k`-th
decoded batch, and the end-of-generation test of the vocabulary. -/
structure World6 where
  tokens_0 : List Int
  tokens_1 : List Int
  decode_ret : Nat → Int
  sample : Nat → Option BatchEntry → Int
  is_eog : Int → Bool

/-- The variables of `main` in `src/6/main.cpp`; `exit_code` is set once `main`
has returned. -/
structure State6 where
  ctx : llama_context
  n0 : Int
  n1 : Int
  tok0 : Int
  tok1 : Int
  batch : llama_batch
  exit_code : Option Int
deriving DecidableEq

/-- Lines 83-99 of `src/6/main.cpp`: the body of the generation loop at
`step`.  The Boolean tells whether the loop goes on (no `break`). -/
def decode_step6 (w : World6) (step : Nat) (st : State6) : Option (State6 × Bool) :=
  let batch := common_batch_clear st.batch
  match common_batch_add batch st.tok0 st.n0 [0] true with
  | none => none
  | some batch =>
    let n0 := st.n0 + 1
    match common_batch_add batch st.tok1 st.n1 [1] true with
    | none => none
    | some batch =>
      let n1 := st.n1 + 1
      let ret := w.decode_ret (step + 1)
      let ctx := llama_decode st.ctx batch ret
      if ret ≠ 0 then
        some ({ st with ctx := ctx, n0 := n0, n1 := n1, batch := batch }, false)
      else
        let tok1 := w.sample (step + 1) (output_at ctx.decoded (-1))
        let ctx := llama_sampler_sample ctx (-1)
        let tok0 := w.sample (step + 1) (output_at ctx.decoded (-2))
        let ctx := llama_sampler_sample ctx (-2)
        some ({ st with ctx := ctx, n0 := n0, n1 := n1, tok0 := tok0, tok1 := tok1,
                        batch := batch },
              !(w.is_eog tok0 && w.is_eog tok1))

/-- The loop `for (step = 0; step < 15; ++step)` of `src/6/main.cpp`, with
`remaining = 15 - step` passes still to run. -/
def generate6 (w : World6) : Nat → Nat → State6 → Option State6
  | 0, _, st => some st
  | remaining + 1, step, st =>
    match decode_step6 w step st with
    | none => none
    | some r => if r.2 then generate6 w remaining (step + 1) r.1 else some r.1

/-- Lines 42-61 of `src/6/main.cpp`: a batch with
`tokens_0.size () + tokens_1.size ()` slots is allocated, both prompts are put
into it and decoded by one call. -/
def prefill6 (w : World6) : Option State6 :=
  let ctx : llama_context := { memory := [], decoded := [], calls := [] }
  let batch : llama_batch := llama_batch_init (w.tokens_0.length + w.tokens_1.length)
  let n0 : Int := 0
  let n1 : Int := 0
  let batch := common_batch_clear batch
  match prefill_loop batch w.tokens_0 n0 [0] with
  | none => none
  | some filled0 =>
    match prefill_loop filled0.1 w.tokens_1 n1 [1] with
    | none => none
    | some filled1 =>
      let ret := w.decode_ret 0
      let ctx := llama_decode ctx filled1.1 ret
      some { ctx := ctx, n0 := filled0.2, n1 := filled1.2, tok0 := 0, tok1 := 0,
             batch := filled1.1, exit_code := if ret ≠ 0 then some 1 else none }

/-- Lines 69-74 of `src/6/main.cpp`: the first sampling, `tok1` with index
`-1` and `tok0` with index `-2`, and the replacement of the batch by one with
two slots. -/
def first_sample6 (w : World6) (st : State6) : State6 :=
  let tok1 := w.sample 0 (output_at st.ctx.decoded (-1))
  let ctx := llama_sampler_sample st.ctx (-1)
  let tok0 := w.sample 0 (output_at ctx.decoded (-2))
  let ctx := llama_sampler_sample ctx (-2)
  let batch : llama_batch := llama_batch_init 2
  { st with ctx := ctx, tok0 := tok0, tok1 := tok1, batch := batch }

/-- The program `src/6/main.cpp`. -/
def main6 (w : World6) : Option State6 :=
  match prefill6 w with
  | none => none
  | some st =>
    if st.exit_code ≠ none then some st
    else
      match generate6 w 15 0 (first_sample6 w st) with
      | none => none
      | some st =>
        let ctx := llama_memory_seq_rm st.ctx 0 (-1) (-1)
        let ctx := llama_memory_seq_rm ctx 1 (-1) (-1)
        some { st with ctx := ctx, exit_code := some 0 }

/-- A batch routes the two sequences as `src/6` assumes: the last emitting
entry (index `-1`) is the latest token of sequence 1 and the second-to-last
emitting entry (index `-2`) is the latest token of sequence 0. -/
def routes_ok (batch : List BatchEntry) : Prop :=
  (∃ e1, output_at batch (-1) = some e1 ∧ latest_of_seq batch 1 = some e1) ∧
  (∃ e0, output_at batch (-2) = some e0 ∧ latest_of_seq batch 0 = some e0)

/-- Batch `b'` continues batch `b`, the `k`-th one decoded, sequence by
sequence: its two entries carry, for sequence 0 and then for sequence 1, the
token sampled from the output of that sequence's latest token in `b`, at the
position after it, both emitting. -/
def routed_link (w : World6) (k : Nat) (b b' : List BatchEntry) : Prop :=
  ∃ e0 e1, latest_of_seq b 0 = some e0 ∧ latest_of_seq b 1 = some e1 ∧
    b' = [{ token := w.sample k (some e0), pos := e0.pos + 1, seq_id := [0], logits := true },
          { token := w.sample k (some e1), pos := e1.pos + 1, seq_id := [1], logits := true }]

/-- The positions at which sequence `s` has a resident cache entry, in cache
order. -/
def resident_positions (memory : List KvCell) (s : Int) : List Int :=
  (memory.filter (fun c => decide (c.seq_id = s))).map (fun c => c.pos)

/-- The position at which an entry that survives an eviction of `n_discard`
positions after the first `n_keep` ends up: entries behind the discarded range
move back by `n_discard`, entries of the kept part stay. -/
def landing_pos (n_keep n_discard p : Int) : Int :=
  if n_keep + n_discard ≤ p then p - n_discard else p

/-- A cache that holds exactly the positions `0, ..., n - 1` of sequence 0. -/
def contiguous_cache (n : Nat) : List KvCell :=
  (List.range n).map (fun (i : Nat) => { pos := (i : Int), seq_id := 0, token := (i : Int) })

/-- The entries a prefill of `toks` starting at counter value `c` puts into a
batch: token `i` at position `c + i`, logits only on the last one. -/
def prefill_entries (toks : List Int) (c : Int) (seq_ids : List Int) : List BatchEntry :=
  (List.range toks.length).map (fun (i : Nat) =>
    { token := toks.getD i 0, pos := c + (i : Int), seq_id := seq_ids,
      logits := decide (i = toks.length - 1) })

/-- A record of backend calls in which every submitted batch routes the two
sequences as `src/6` assumes, and every sampler call uses index `-1` or `-2` on
such a batch. -/
def calls_ok (calls : List BackendCall) : Prop :=
  ∀ c ∈ calls,
    match c with
    | BackendCall.decode batch _ => routes_ok batch
    | BackendCall.sample idx batch => (idx = -1 ∨ idx = -2) ∧ routes_ok batch
    | _ => True

/-- A run of `src/6` in which every decode succeeds and both sampled tokens are
end-of-generation after the first step. -/
def world6_example : World6 :=
  { tokens_0 := [1, 2], tokens_1 := [3], decode_ret := fun _ => 0, sample := fun _ _ => 9,
    is_eog := fun _ => true }

/-- A run of `src/6` in which the prefill succeeds and the first generation
step's `llama_decode` fails. -/
def world6_decode_fails : World6 :=
  { tokens_0 := [1], tokens_1 := [2], decode_ret := fun k => if k = 1 then 1 else 0,
    sample := fun _ _ => 7, is_eog := fun _ => false }

/-- What a record of backend calls of `src/6` shows: every submitted batch
routes the two sequences, every sampler call uses index `-1` or `-2` on a batch
that was decoded successfully, and every batch after the first continues the
one before it sequence by sequence. -/
def record_ok (w : World6) (calls : List BackendCall) : Prop :=
  calls_ok calls ∧
  (∀ idx b, BackendCall.sample idx b ∈ calls → BackendCall.decode b 0 ∈ calls) ∧
  (∀ k b b', (decoded_batches calls)[k]? = some b → (decoded_batches calls)[k + 1]? = some b' →
    routed_link w k b b')

/-- The property of the state at the top of the generation loop of `src/6`
before pass `step`: the batch has its two slots, the record so far is in
order, the last batch submitted is the one decoded, and `tok0`, `tok1`, `n0`,
`n1` are the tokens sampled from, and the positions after, the latest tokens
of sequence 0 and of sequence 1 in it. -/
def loop6_inv (w : World6) (step : Nat) (st : State6) : Prop :=
  2 ≤ st.batch.capacity ∧
  record_ok w st.ctx.calls ∧
  (decoded_batches st.ctx.calls).length = step + 1 ∧
  (decoded_batches st.ctx.calls)[step]? = some st.ctx.decoded ∧
  BackendCall.decode st.ctx.decoded 0 ∈ st.ctx.calls ∧
  ∃ e0 e1, latest_of_seq st.ctx.decoded 0 = some e0 ∧ latest_of_seq st.ctx.decoded 1 = some e1 ∧
    st.tok0 = w.sample step (some e0) ∧ st.tok1 = w.sample step (some e1) ∧
    st.n0 = e0.pos + 1 ∧ st.n1 = e1.pos + 1

/-! ## The eviction routine -/

theorem tdiv_four (a : Int) (h : 0 ≤ a) : Int.tdiv a 4 = a / 4 :=
  Int.tdiv_eq_ediv h (by decide)

theorem handle_kv_cache_overflow_calls (ctx : llama_context) (n_past n_keep : Int) :
    (handle_kv_cache_overflow ctx n_past n_keep).1.calls
      = ctx.calls ++
          [BackendCall.seq_rm 0 n_keep (n_keep + Int.tdiv (n_past - n_keep) 4),
           BackendCall.seq_add 0 (n_keep + Int.tdiv (n_past - n_keep) 4) n_past
             (-(Int.tdiv (n_past - n_keep) 4))] := by
  simp [handle_kv_cache_overflow, llama_memory_seq_rm, llama_memory_seq_add]

theorem handle_kv_cache_overflow_n_past (ctx : llama_context) (n_past n_keep : Int) :
    (handle_kv_cache_overflow ctx n_past n_keep).2 = n_past - Int.tdiv (n_past - n_keep) 4 := rfl

theorem handle_kv_cache_overflow_memory (ctx : llama_context) (n_past n_keep : Int) :
    (handle_kv_cache_overflow ctx n_past n_keep).1.memory
      = (ctx.memory.filter (fun c =>
          !(decide (c.seq_id = 0) &&
            pos_in_range n_keep (n_keep + Int.tdiv (n_past - n_keep) 4) c.pos))).map
          (fun c =>
            if decide (c.seq_id = 0) &&
                pos_in_range (n_keep + Int.tdiv (n_past - n_keep) 4) n_past c.pos
            then { c with pos := c.pos + -(Int.tdiv (n_past - n_keep) 4) } else c) := rfl

/-- No intermediate value of `handle_kv_cache_overflow` leaves the range of a
32-bit `int` when `0 <= n_keep <= n_past` holds on entry. -/
theorem handle_kv_cache_overflow_int_range (n_past n_keep : Int)
    (h0 : 0 ≤ n_keep) (h1 : n_keep ≤ n_past) (h2 : n_past < 2 ^ 31) :
    (0 ≤ n_past - n_keep ∧ n_past - n_keep < 2 ^ 31) ∧
    (0 ≤ Int.tdiv (n_past - n_keep) 4 ∧ Int.tdiv (n_past - n_keep) 4 < 2 ^ 31) ∧
    (0 ≤ n_keep + Int.tdiv (n_past - n_keep) 4 ∧
      n_keep + Int.tdiv (n_past - n_keep) 4 < 2 ^ 31) ∧
    (-(2 ^ 31) ≤ -(Int.tdiv (n_past - n_keep) 4)) ∧
    (0 ≤ n_past - Int.tdiv (n_past - n_keep) 4 ∧
      n_past - Int.tdiv (n_past - n_keep) 4 < 2 ^ 31) := by
  rw [tdiv_four _ (by omega)]
  omega

theorem pos_in_range_eq (p0 p1 pos : Int) (h0 : 0 ≤ p0) (h1 : 0 ≤ p1) :
    pos_in_range p0 p1 pos = decide (p0 ≤ pos ∧ pos < p1) := by
  unfold pos_in_range
  have e0 : ¬ p0 < 0 := by omega
  have e1 : ¬ p1 < 0 := by omega
  simp [e0, e1]

theorem filter_map_filter_frame {α : Type} (p f : α → Bool) (g : α → α) (l : List α)
    (h1 : ∀ c, p c = true → f c = true ∧ g c = c)
    (h2 : ∀ c, f c = true → p c = false → p (g c) = false) :
    ((l.filter f).map g).filter p = l.filter p := by
  induction l with
  | nil => rfl
  | cons c l ih =>
    by_cases hp : p c = true
    · obtain ⟨hf, hg⟩ := h1 c hp
      simp [List.filter_cons, hf, hp, hg, ih]
    · have hp2 : p c = false := by simpa using hp
      by_cases hf : f c = true
      · have := h2 c hf hp2
        simp [List.filter_cons, hf, hp2, this, ih]
      · have hf2 : f c = false := by simpa using hf
        simp [List.filter_cons, hf2, hp2, ih]

theorem positions_filter_map {α β : Type} (S F : α → Bool) (G : α → α) (P : α → β)
    (f' : β → Bool) (g' : β → β) (l : List α)
    (hS : ∀ c, S (G c) = S c)
    (hF : ∀ c, S c = true → F c = f' (P c))
    (hG : ∀ c, S c = true → P (G c) = g' (P c)) :
    (((l.filter F).map G).filter S).map P = (((l.filter S).map P).filter f').map g' := by
  induction l with
  | nil => rfl
  | cons c l ih =>
    cases hSc : S c with
    | false =>
      cases hFc : F c with
      | false => simp [List.filter_cons, hSc, hFc, ih]
      | true => simp [List.filter_cons, hSc, hFc, hS, ih]
    | true =>
      have e := hF c hSc
      cases hFc : F c with
      | false =>
        rw [hFc] at e
        simp [List.filter_cons, hSc, hFc, ← e, ih]
      | true =>
        rw [hFc] at e
        simp [List.filter_cons, hSc, hFc, ← e, hS, hG c hSc, ih]

theorem positions_after_overflow (mem : List KvCell) (n_keep d n_past : Int)
    (h0 : 0 ≤ n_keep) (hd : 0 ≤ d) (h1 : n_keep + d ≤ n_past) :
    resident_positions
      ((mem.filter (fun c =>
          !(decide (c.seq_id = 0) && pos_in_range n_keep (n_keep + d) c.pos))).map
          (fun c =>
            if decide (c.seq_id = 0) && pos_in_range (n_keep + d) n_past c.pos
            then { c with pos := c.pos + -d } else c)) 0
      = ((resident_positions mem 0).filter
            (fun p => decide (¬ (n_keep ≤ p ∧ p < n_keep + d)))).map
          (fun p => if n_keep + d ≤ p ∧ p < n_past then p - d else p) := by
  unfold resident_positions
  apply positions_filter_map
  · intro c
    by_cases h : (decide (c.seq_id = 0) && pos_in_range (n_keep + d) n_past c.pos) = true
    · simp [h]
    · simp [h]
  · intro c hc
    rw [pos_in_range_eq n_keep (n_keep + d) c.pos h0 (by omega)]
    by_cases h : n_keep ≤ c.pos ∧ c.pos < n_keep + d
    · simp [hc, h]
    · simp [hc, h]
  · intro c hc
    rw [pos_in_range_eq (n_keep + d) n_past c.pos (by omega) (by omega)]
    by_cases h : n_keep + d ≤ c.pos ∧ c.pos < n_past
    · simp [hc, h]
      rfl
    · simp [hc, h]

theorem nodup_after_overflow (l : List Int) (n_keep d n_past : Int) (hd : 0 ≤ d)
    (hn : l.Nodup) :
    ((l.filter (fun p => decide (¬ (n_keep ≤ p ∧ p < n_keep + d)))).map
          (fun p => if n_keep + d ≤ p ∧ p < n_past then p - d else p)).Nodup := by
  apply List.Nodup.map_on _ (hn.filter _)
  intro x hx y hy hxy
  have hx' := (List.mem_filter.1 hx).2
  have hy' := (List.mem_filter.1 hy).2
  simp only [decide_eq_true_eq] at hx' hy'
  split_ifs at hxy <;> omega

theorem mem_after_overflow (l : List Int) (n_keep d n_past : Int) (h0 : 0 ≤ n_keep)
    (hd : 0 ≤ d) (h1 : n_keep + d ≤ n_past)
    (hexact : ∀ p, p ∈ l ↔ 0 ≤ p ∧ p < n_past) (q : Int) :
    q ∈ (l.filter (fun p => decide (¬ (n_keep ≤ p ∧ p < n_keep + d)))).map
          (fun p => if n_keep + d ≤ p ∧ p < n_past then p - d else p)
      ↔ 0 ≤ q ∧ q < n_past - d := by
  simp only [List.mem_map, List.mem_filter, decide_eq_true_eq, hexact]
  constructor
  · rintro ⟨p, ⟨⟨hp0, hp1⟩, hp2⟩, rfl⟩
    split_ifs <;> omega
  · rintro ⟨hq0, hq1⟩
    by_cases hq : q < n_keep
    · refine ⟨q, ⟨⟨hq0, by omega⟩, by omega⟩, ?_⟩
      rw [if_neg (by omega)]
    · refine ⟨q + d, ⟨⟨by omega, by omega⟩, by omega⟩, ?_⟩
      rw [if_pos (by omega)]
      omega

theorem resident_positions_contiguous (n : Nat) :
    resident_positions (contiguous_cache n) 0 = (List.range n).map (fun (i : Nat) => (i : Int)) := by
  unfold resident_positions contiguous_cache
  rw [List.filter_eq_self.2]
  · simp [List.map_map, Function.comp_def]
  · intro c hc
    obtain ⟨i, _, rfl⟩ := List.mem_map.1 hc
    simp

theorem contiguous_cache_nodup (n : Nat) : (resident_positions (contiguous_cache n) 0).Nodup := by
  rw [resident_positions_contiguous]
  exact List.Nodup.map (fun a b h => by exact_mod_cast h) (List.nodup_range n)

theorem contiguous_cache_exact (n : Nat) (p : Int) :
    p ∈ resident_positions (contiguous_cache n) 0 ↔ 0 ≤ p ∧ p < (n : Int) := by
  rw [resident_positions_contiguous]
  simp only [List.mem_map, List.mem_range]
  constructor
  · rintro ⟨i, hi, rfl⟩
    omega
  · rintro ⟨h0, h1⟩
    exact ⟨p.toNat, by omega, by omega⟩

/-- C1: for `0 <= n_keep <= n_past`, `handle_kv_cache_overflow` computes
`discard = floor ((n_past - n_keep) / 4)`, issues exactly two cache commands
for sequence 0, in this order: remove `[n_keep, n_keep + discard)`, then shift
`[n_keep + discard, n_past)` by `-discard` (with `n_past` as it was on entry),
and leaves `n_past - discard` in `n_past`. -/
theorem handle_kv_cache_overflow_spec (ctx : llama_context) (n_past n_keep : Int)
    (_h0 : 0 ≤ n_keep) (h1 : n_keep ≤ n_past) :
    (handle_kv_cache_overflow ctx n_past n_keep).1.calls
      = ctx.calls ++
          [BackendCall.seq_rm 0 n_keep (n_keep + (n_past - n_keep) / 4),
           BackendCall.seq_add 0 (n_keep + (n_past - n_keep) / 4) n_past
             (-((n_past - n_keep) / 4))]
    ∧ (handle_kv_cache_overflow ctx n_past n_keep).2 = n_past - (n_past - n_keep) / 4 := by
  have h : Int.tdiv (n_past - n_keep) 4 = (n_past - n_keep) / 4 := tdiv_four _ (by omega)
  rw [handle_kv_cache_overflow_calls, handle_kv_cache_overflow_n_past, h]
  exact ⟨rfl, rfl⟩

/-- Witness of C1 at `n_keep = 10`, `n_past = 100`: `discard = 22`, remove
`[10, 32)`, shift `[32, 100)` by `-22`, `n_past = 78`. -/
theorem handle_kv_cache_overflow_spec_witness :
    (0 : Int) ≤ 10 ∧ (10 : Int) ≤ 100 ∧
    (handle_kv_cache_overflow { memory := [], decoded := [], calls := [] } 100 10).1.calls
      = [BackendCall.seq_rm 0 10 32, BackendCall.seq_add 0 32 100 (-22)]
    ∧ (handle_kv_cache_overflow { memory := [], decoded := [], calls := [] } 100 10).2 = 78 :=
  ⟨by decide, by decide,
    handle_kv_cache_overflow_spec { memory := [], decoded := [], calls := [] } 100 10
      (by decide) (by decide)⟩

/-- C4, as stated, fails: with `n_keep = n_past = 10` the discard is `0`, yet
the routine issues its two cache commands to the backend (and has no way to
report a failure: it returns `void`). -/
theorem no_reclaim_still_issues_commands :
    Int.tdiv (10 - 10) 4 ≤ 0 ∧
    (handle_kv_cache_overflow { memory := [], decoded := [], calls := [] } 10 10).1.calls
      = [BackendCall.seq_rm 0 10 10, BackendCall.seq_add 0 10 10 0] ∧
    (handle_kv_cache_overflow { memory := [], decoded := [], calls := [] } 10 10).1.calls ≠ [] := by
  decide

/-- C4, amended: for `0 <= n_keep` and `discard = (n_past - n_keep) / 4 = 0`
(C division; in particular when `n_keep = n_past`), `handle_kv_cache_overflow`
still issues its two commands, remove `[n_keep, n_keep)` and shift
`[n_keep, n_past)` by `0`; they leave the cache as it was, and `n_past` is
unchanged. -/
theorem no_reclaim_changes_nothing (ctx : llama_context) (n_past n_keep : Int)
    (h0 : 0 ≤ n_keep) (hd : Int.tdiv (n_past - n_keep) 4 = 0) :
    (handle_kv_cache_overflow ctx n_past n_keep).1.calls
      = ctx.calls ++ [BackendCall.seq_rm 0 n_keep n_keep, BackendCall.seq_add 0 n_keep n_past 0]
    ∧ (handle_kv_cache_overflow ctx n_past n_keep).1.memory = ctx.memory
    ∧ (handle_kv_cache_overflow ctx n_past n_keep).1.decoded = ctx.decoded
    ∧ (handle_kv_cache_overflow ctx n_past n_keep).2 = n_past := by
  refine ⟨?_, ?_, rfl, ?_⟩
  · rw [handle_kv_cache_overflow_calls, hd]
    simp
  · rw [handle_kv_cache_overflow_memory, hd]
    have hf : ∀ c : KvCell,
        (!(decide (c.seq_id = 0) && pos_in_range n_keep (n_keep + 0) c.pos)) = true := by
      intro c
      rw [pos_in_range_eq n_keep (n_keep + 0) c.pos h0 (by omega)]
      have : ¬ (n_keep ≤ c.pos ∧ c.pos < n_keep + 0) := by omega
      rw [decide_eq_false this]
      simp
    rw [List.filter_eq_self.2 (fun c _ => hf c)]
    have hg : ∀ c : KvCell,
        (if (decide (c.seq_id = 0) && pos_in_range (n_keep + 0) n_past c.pos) = true
          then { c with pos := c.pos + -0 } else c) = c := by
      intro c
      split_ifs
      · simp
      · rfl
    simp only [hg]
    exact List.map_id _
  · rw [handle_kv_cache_overflow_n_past, hd]
    omega

/-- Witness of the amended C4 at `n_keep = n_past = 10`. -/
theorem no_reclaim_changes_nothing_witness :
    (0 : Int) ≤ 10 ∧ Int.tdiv (10 - 10) 4 = 0 ∧
    (handle_kv_cache_overflow { memory := contiguous_cache 10, decoded := [], calls := [] }
        10 10).1.memory = contiguous_cache 10 ∧
    (handle_kv_cache_overflow { memory := contiguous_cache 10, decoded := [], calls := [] }
        10 10).2 = 10 :=
  ⟨by decide, by decide,
    (no_reclaim_changes_nothing { memory := contiguous_cache 10, decoded := [], calls := [] }
      10 10 (by decide) (by decide)).2.1,
    (no_reclaim_changes_nothing { memory := contiguous_cache 10, decoded := [], calls := [] }
      10 10 (by decide) (by decide)).2.2.2⟩

/-- C6: for `0 <= n_keep <= n_past` the value `n_past'` that
`handle_kv_cache_overflow` leaves in `n_past` satisfies
`n_keep <= n_past' <= n_past`. -/
theorem handle_kv_cache_overflow_keeps_order (ctx : llama_context) (n_past n_keep : Int)
    (_h0 : 0 ≤ n_keep) (h1 : n_keep ≤ n_past) :
    n_keep ≤ (handle_kv_cache_overflow ctx n_past n_keep).2 ∧
    (handle_kv_cache_overflow ctx n_past n_keep).2 ≤ n_past := by
  rw [handle_kv_cache_overflow_n_past, tdiv_four _ (by omega)]
  omega

/-- Witness of C6 at `n_keep = 10`, `n_past = 100`. -/
theorem handle_kv_cache_overflow_keeps_order_witness :
    (0 : Int) ≤ 10 ∧ (10 : Int) ≤ 100 ∧
    (10 : Int) ≤ (handle_kv_cache_overflow { memory := [], decoded := [], calls := [] } 100 10).2 ∧
    (handle_kv_cache_overflow { memory := [], decoded := [], calls := [] } 100 10).2 ≤ 100 :=
  ⟨by decide, by decide,
    handle_kv_cache_overflow_keeps_order { memory := [], decoded := [], calls := [] } 100 10
      (by decide) (by decide)⟩

/-! ## Prefill batches -/

theorem prefill_loop_eq (batch : llama_batch) (toks : List Int) (c : Int) (seq_ids : List Int)
    (hwf : batch.entries.length ≤ batch.capacity) :
    prefill_loop batch toks c seq_ids
      = if batch.entries.length + toks.length ≤ batch.capacity then
          some ({ batch with entries := batch.entries ++ prefill_entries toks c seq_ids },
                c + (toks.length : Int))
        else none := by
  unfold prefill_loop prefill_entries
  generalize toks.length = L
  have key : ∀ k : Nat, (List.range k).foldl
      (fun (acc : Option (llama_batch × Int)) i =>
        match acc with
        | none => none
        | some s =>
          match common_batch_add s.1 (toks.getD i 0) s.2 seq_ids (decide (i = L - 1)) with
          | none => none
          | some b => some (b, s.2 + 1))
      (some (batch, c))
      = if batch.entries.length + k ≤ batch.capacity then
          some ({ batch with entries := batch.entries ++ (List.range k).map (fun (i : Nat) =>
                  ({ token := toks.getD i 0, pos := c + (i : Int), seq_id := seq_ids,
                     logits := decide (i = L - 1) } : BatchEntry)) },
                c + (k : Int))
        else none := by
    intro k
    induction k with
    | zero => simp [hwf]
    | succ k ih =>
      rw [List.range_succ, List.foldl_append, ih]
      by_cases h1 : batch.entries.length + k ≤ batch.capacity
      · by_cases h2 : batch.entries.length + (k + 1) ≤ batch.capacity
        · have h3 : batch.entries.length + k < batch.capacity := by omega
          simp [h1, h2, h3, common_batch_add, List.map_append]
          omega
        · have h3 : ¬ batch.entries.length + k < batch.capacity := by omega
          simp [h1, h2, h3, common_batch_add]
      · have h2 : ¬ batch.entries.length + (k + 1) ≤ batch.capacity := by omega
        simp [h1, h2]
  exact key L

theorem prefill_loop_clear (batch : llama_batch) (toks : List Int) (c : Int)
    (seq_ids : List Int) :
    prefill_loop (common_batch_clear batch) toks c seq_ids
      = if toks.length ≤ batch.capacity then
          some ({ capacity := batch.capacity, entries := prefill_entries toks c seq_ids },
                c + (toks.length : Int))
        else none := by
  rw [prefill_loop_eq _ _ _ _ (by simp [common_batch_clear])]
  simp [common_batch_clear]

theorem common_batch_add_clear (batch : llama_batch) (id pos : Int) (seq_ids : List Int)
    (logits : Bool) :
    common_batch_add (common_batch_clear batch) id pos seq_ids logits
      = if 1 ≤ batch.capacity then
          some { capacity := batch.capacity,
                 entries := [{ token := id, pos := pos, seq_id := seq_ids, logits := logits }] }
        else none := by
  unfold common_batch_add common_batch_clear
  by_cases h : 1 ≤ batch.capacity
  · have h' : 0 < batch.capacity := h
    simp [h, h']
  · have h' : ¬ 0 < batch.capacity := h
    simp [h, h']

theorem prefill_entries_length (toks : List Int) (c : Int) (seq_ids : List Int) :
    (prefill_entries toks c seq_ids).length = toks.length := by
  simp [prefill_entries]

theorem prefill_entries_getElem? (toks : List Int) (c : Int) (seq_ids : List Int) (i : Nat)
    (h : i < toks.length) :
    (prefill_entries toks c seq_ids)[i]?
      = some { token := toks[i], pos := c + (i : Int), seq_id := seq_ids,
               logits := decide (i = toks.length - 1) } := by
  simp [prefill_entries, List.getElem?_map, List.getElem?_range h, List.getElem?_eq_getElem h]

theorem prefill_entries_filter_logits (toks : List Int) (c : Int) (seq_ids : List Int)
    (h : 1 ≤ toks.length) :
    (prefill_entries toks c seq_ids).filter (fun e => e.logits)
      = [{ token := toks.getD (toks.length - 1) 0, pos := c + ((toks.length - 1 : Nat) : Int),
           seq_id := seq_ids, logits := true }] := by
  unfold prefill_entries
  obtain ⟨k, hk⟩ : ∃ k, toks.length = k + 1 := ⟨toks.length - 1, by omega⟩
  rw [hk, List.range_succ, List.map_append, List.filter_append]
  have h1 : ((List.range k).map (fun (i : Nat) =>
      ({ token := toks.getD i 0, pos := c + (i : Int), seq_id := seq_ids,
         logits := decide (i = k + 1 - 1) } : BatchEntry))).filter (fun e => e.logits) = [] := by
    rw [List.filter_eq_nil_iff]
    intro e he
    obtain ⟨i, hi, rfl⟩ := List.mem_map.1 he
    have := List.mem_range.1 hi
    simp
    omega
  rw [h1]
  simp

theorem prefill_entries_seq (toks : List Int) (c : Int) (seq_ids : List Int) :
    ∀ e ∈ prefill_entries toks c seq_ids, e.seq_id = seq_ids := by
  intro e he
  obtain ⟨i, _, rfl⟩ := List.mem_map.1 he
  rfl

theorem prefill_entries_getLast? (toks : List Int) (c : Int) (seq_ids : List Int)
    (h : 1 ≤ toks.length) :
    (prefill_entries toks c seq_ids).getLast?
      = some { token := toks.getD (toks.length - 1) 0, pos := c + ((toks.length - 1 : Nat) : Int),
               seq_id := seq_ids, logits := true } := by
  unfold prefill_entries
  obtain ⟨k, hk⟩ : ∃ k, toks.length = k + 1 := ⟨toks.length - 1, by omega⟩
  rw [hk, List.range_succ, List.map_append]
  simp

/-! ## The steps of the chat loop of `src/7` -/

theorem llama_decode_calls (ctx : llama_context) (batch : llama_batch) (ret : Int) :
    (llama_decode ctx batch ret).calls = ctx.calls ++ [BackendCall.decode batch.entries ret] := by
  unfold llama_decode
  split_ifs <;> rfl

theorem main7_start_eq (prompt_toks : List Int) (decode_ret : Int) :
    main7_start prompt_toks decode_ret
      = if prompt_toks.length ≤ 256 then
          some { ctx := llama_decode { memory := [], decoded := [], calls := [] }
                   { capacity := 256, entries := prefill_entries prompt_toks 0 [0] } decode_ret,
                 n_ctx := 256, n_past := 0 + (prompt_toks.length : Int),
                 n_keep := (prompt_toks.length : Int),
                 batch := { capacity := 256, entries := prefill_entries prompt_toks 0 [0] },
                 pc := if decode_ret ≠ 0 then Pc7.exited 1 else Pc7.awaiting_input }
        else none := by
  have e : Int.toNat 256 = 256 := rfl
  unfold main7_start
  simp only [prefill_loop_clear, llama_batch_init, e]
  split_ifs <;> rfl

theorem user_turn7_eq (st : State7) (toks : List Int) (ret : Int) :
    user_turn7 st toks ret
      = if toks.length ≤ st.batch.capacity then
          some { ctx := llama_decode
                   (overflow_check st.ctx st.n_ctx st.n_past st.n_keep (toks.length : Int)).1
                   { capacity := st.batch.capacity,
                     entries := prefill_entries toks
                       (overflow_check st.ctx st.n_ctx st.n_past st.n_keep (toks.length : Int)).2
                       [0] } ret,
                 n_ctx := st.n_ctx,
                 n_past := (overflow_check st.ctx st.n_ctx st.n_past st.n_keep
                             (toks.length : Int)).2 + (toks.length : Int),
                 n_keep := st.n_keep,
                 batch := { capacity := st.batch.capacity,
                            entries := prefill_entries toks
                              (overflow_check st.ctx st.n_ctx st.n_past st.n_keep
                                (toks.length : Int)).2 [0] },
                 pc := if ret ≠ 0 then Pc7.exited 1 else Pc7.generating 0 }
        else none := by
  unfold user_turn7
  simp only [prefill_loop_clear]
  split_ifs <;> rfl

theorem generate_step7_eq (is_eog : Int → Bool) (st : State7) (i : Nat) (id ret : Int)
    (hne : is_eog id = false) :
    generate_step7 is_eog st i id ret
      = if 1 ≤ st.batch.capacity then
          some { ctx := llama_decode
                   (overflow_check (llama_sampler_sample st.ctx (-1)) st.n_ctx st.n_past
                     st.n_keep 1).1
                   { capacity := st.batch.capacity,
                     entries := [{ token := id,
                                   pos := (overflow_check (llama_sampler_sample st.ctx (-1))
                                            st.n_ctx st.n_past st.n_keep 1).2,
                                   seq_id := [0], logits := true }] } ret,
                 n_ctx := st.n_ctx,
                 n_past := (overflow_check (llama_sampler_sample st.ctx (-1)) st.n_ctx st.n_past
                             st.n_keep 1).2 + 1,
                 n_keep := st.n_keep,
                 batch := { capacity := st.batch.capacity,
                            entries := [{ token := id,
                                          pos := (overflow_check (llama_sampler_sample st.ctx (-1))
                                                   st.n_ctx st.n_past st.n_keep 1).2,
                                          seq_id := [0], logits := true }] },
                 pc := if ret ≠ 0 then Pc7.exited 1
                       else if i + 1 < 2048 then Pc7.generating (i + 1)
                       else Pc7.awaiting_input }
        else none := by
  unfold generate_step7
  simp only [hne, Bool.false_eq_true, if_false, common_batch_add_clear]
  split_ifs <;> rfl

theorem generate_step7_eog_eq (is_eog : Int → Bool) (st : State7) (i : Nat) (id ret : Int)
    (he : is_eog id = true) :
    generate_step7 is_eog st i id ret
      = if 1 ≤ st.batch.capacity then
          some { ctx := llama_decode (llama_sampler_sample st.ctx (-1))
                   { capacity := st.batch.capacity,
                     entries := [{ token := id, pos := st.n_past, seq_id := [0],
                                   logits := false }] } ret,
                 n_ctx := st.n_ctx, n_past := st.n_past + 1, n_keep := st.n_keep,
                 batch := { capacity := st.batch.capacity,
                            entries := [{ token := id, pos := st.n_past, seq_id := [0],
                                          logits := false }] },
                 pc := Pc7.awaiting_input }
        else none := by
  unfold generate_step7
  simp only [he, if_true, common_batch_add_clear]
  split_ifs <;> rfl

theorem prefill6_eq (w : World6) :
    prefill6 w
      = some { ctx := llama_decode { memory := [], decoded := [], calls := [] }
                 { capacity := w.tokens_0.length + w.tokens_1.length,
                   entries := prefill_entries w.tokens_0 0 [0]
                     ++ prefill_entries w.tokens_1 0 [1] } (w.decode_ret 0),
               n0 := 0 + (w.tokens_0.length : Int), n1 := 0 + (w.tokens_1.length : Int),
               tok0 := 0, tok1 := 0,
               batch := { capacity := w.tokens_0.length + w.tokens_1.length,
                          entries := prefill_entries w.tokens_0 0 [0]
                            ++ prefill_entries w.tokens_1 0 [1] },
               exit_code := if w.decode_ret 0 ≠ 0 then some 1 else none } := by
  have e0 : prefill_loop
      (common_batch_clear (llama_batch_init (w.tokens_0.length + w.tokens_1.length)))
      w.tokens_0 0 [0]
      = some ({ capacity := w.tokens_0.length + w.tokens_1.length,
                entries := prefill_entries w.tokens_0 0 [0] }, 0 + (w.tokens_0.length : Int)) := by
    rw [prefill_loop_clear, if_pos (by simp [llama_batch_init])]
    rfl
  have e1 : prefill_loop
      { capacity := w.tokens_0.length + w.tokens_1.length,
        entries := prefill_entries w.tokens_0 0 [0] } w.tokens_1 0 [1]
      = some ({ capacity := w.tokens_0.length + w.tokens_1.length,
                entries := prefill_entries w.tokens_0 0 [0]
                  ++ prefill_entries w.tokens_1 0 [1] }, 0 + (w.tokens_1.length : Int)) := by
    rw [prefill_loop_eq _ _ _ _ (by simp [prefill_entries_length]),
      if_pos (by simp [prefill_entries_length])]
  simp only [prefill6, e0, e1]

theorem ite_some_none_eq {α : Type} {c : Prop} [Decidable c] {a b : α}
    (h : (if c then some a else none) = some b) : c ∧ a = b := by
  by_cases hc : c
  · rw [if_pos hc] at h
    exact ⟨hc, Option.some.inj h⟩
  · rw [if_neg hc] at h
    exact absurd h (by simp)

theorem overflow_check_n_past (ctx : llama_context) (n_ctx n_past n_keep n_incoming : Int) :
    (overflow_check ctx n_ctx n_past n_keep n_incoming).2
      = if n_past + n_incoming > n_ctx then n_past - Int.tdiv (n_past - n_keep) 4
        else n_past := by
  unfold overflow_check
  split_ifs <;> rfl

theorem overflow_check_bounds (ctx : llama_context) (n_ctx n_past n_keep n_incoming : Int)
    (h1 : n_keep ≤ n_past) :
    n_keep ≤ (overflow_check ctx n_ctx n_past n_keep n_incoming).2 ∧
    (overflow_check ctx n_ctx n_past n_keep n_incoming).2 ≤ n_past := by
  rw [overflow_check_n_past]
  split_ifs
  · rw [tdiv_four _ (by omega)]
    omega
  · omega

theorem step7_frame (is_eog : Int → Bool) (st st' : State7) (inp : Input7)
    (h : step7 is_eog st inp = some st') :
    st'.n_keep = st.n_keep ∧ st'.n_ctx = st.n_ctx ∧
    st'.batch.capacity = st.batch.capacity ∧
    (st.n_keep ≤ st.n_past → st.n_keep ≤ st'.n_past) := by
  unfold step7 at h
  split at h
  · rename_i toks ret _
    rw [user_turn7_eq] at h
    have h := (ite_some_none_eq h).2
    subst h
    refine ⟨rfl, rfl, rfl, ?_⟩
    intro hk
    have := (overflow_check_bounds st.ctx st.n_ctx st.n_past st.n_keep (toks.length : Int)
      hk).1
    show st.n_keep ≤ (overflow_check st.ctx st.n_ctx st.n_past st.n_keep
      (toks.length : Int)).2 + (toks.length : Int)
    omega
  · rename_i i id ret _
    cases he : is_eog id with
    | true =>
      rw [generate_step7_eog_eq is_eog st i id ret he] at h
      have h := (ite_some_none_eq h).2
      subst h
      refine ⟨rfl, rfl, rfl, ?_⟩
      intro hk
      show st.n_keep ≤ st.n_past + 1
      omega
    | false =>
      rw [generate_step7_eq is_eog st i id ret he] at h
      have h := (ite_some_none_eq h).2
      subst h
      refine ⟨rfl, rfl, rfl, ?_⟩
      intro hk
      have := (overflow_check_bounds (llama_sampler_sample st.ctx (-1)) st.n_ctx st.n_past
        st.n_keep 1 hk).1
      show st.n_keep ≤ (overflow_check (llama_sampler_sample st.ctx (-1)) st.n_ctx st.n_past
        st.n_keep 1).2 + 1
      omega
  · simp only [Option.some.injEq] at h
    subst h
    exact ⟨rfl, rfl, rfl, fun hk => hk⟩

theorem step7_n_keep (is_eog : Int → Bool) (st st' : State7) (inp : Input7)
    (h : step7 is_eog st inp = some st') : st'.n_keep = st.n_keep :=
  (step7_frame is_eog st st' inp h).1

theorem step7_total (is_eog : Int → Bool) (st : State7) (inp : Input7)
    (hcap : 1 ≤ st.batch.capacity)
    (hfit : ∀ toks r, inp = Input7.user toks r → toks.length ≤ st.batch.capacity) :
    ∃ st', step7 is_eog st inp = some st' := by
  unfold step7
  split
  · rename_i toks ret _
    rw [user_turn7_eq, if_pos (hfit toks ret rfl)]
    exact ⟨_, rfl⟩
  · rename_i i id ret _
    cases he : is_eog id with
    | true =>
      rw [generate_step7_eog_eq is_eog st i id ret he, if_pos hcap]
      exact ⟨_, rfl⟩
    | false =>
      rw [generate_step7_eq is_eog st i id ret he, if_pos hcap]
      exact ⟨_, rfl⟩
  · exact ⟨_, rfl⟩

theorem run7_invariant (is_eog : Int → Bool) (inputs : List Input7) :
    ∀ st st' : State7, run7 is_eog st inputs = some st' → st.n_keep ≤ st.n_past →
      st'.n_keep = st.n_keep ∧ st'.n_ctx = st.n_ctx ∧ st.n_keep ≤ st'.n_past := by
  induction inputs with
  | nil =>
    intro st st' h hk
    simp only [run7, Option.some.injEq] at h
    subst h
    exact ⟨rfl, rfl, hk⟩
  | cons inp rest ih =>
    intro st st' h hk
    unfold run7 at h
    split at h
    · exact absurd h (by simp)
    · rename_i s hs
      obtain ⟨f1, f2, -, f4⟩ := step7_frame is_eog st s inp hs
      obtain ⟨g1, g2, g3⟩ := ih s st' h (by rw [f1]; exact f4 hk)
      rw [f1] at g1 g3
      rw [f2] at g2
      exact ⟨g1, g2, g3⟩

theorem run7_total (is_eog : Int → Bool) (inputs : List Input7) :
    ∀ st : State7, 1 ≤ st.batch.capacity →
      (∀ toks r, Input7.user toks r ∈ inputs → toks.length ≤ st.batch.capacity) →
      ∃ st', run7 is_eog st inputs = some st' := by
  induction inputs with
  | nil => intro st _ _; exact ⟨st, rfl⟩
  | cons inp rest ih =>
    intro st hcap hfit
    obtain ⟨s, hs⟩ := step7_total is_eog st inp hcap
      (fun toks r e => hfit toks r (by rw [e]; exact List.mem_cons_self _ _))
    have hc := (step7_frame is_eog st s inp hs).2.2.1
    obtain ⟨s', hs'⟩ := ih s (by rw [hc]; exact hcap)
      (fun toks r hm => by rw [hc]; exact hfit toks r (List.mem_cons_of_mem _ hm))
    refine ⟨s', ?_⟩
    unfold run7
    rw [hs]
    exact hs'

/-! ## The effect of the eviction on the cache -/

/-- C5: eviction never touches the kept part.  For every cache and every
`0 <= n_keep <= n_past`, each entry of sequence 0 at a position `p < n_keep` is
still in the cache after `handle_kv_cache_overflow`, at the same position and
with the same content; indeed the entries of sequence 0 below `n_keep` are the
same before and after.  `n_keep` is passed by value: no step of the chat loop
changes it (a step that stops in a full batch leaves no state at all). -/
theorem eviction_keeps_kept_cells (ctx : llama_context) (n_past n_keep : Int)
    (h0 : 0 ≤ n_keep) (h1 : n_keep ≤ n_past) :
    (∀ c ∈ ctx.memory, c.seq_id = 0 → c.pos < n_keep →
      c ∈ (handle_kv_cache_overflow ctx n_past n_keep).1.memory) ∧
    (handle_kv_cache_overflow ctx n_past n_keep).1.memory.filter
        (fun c => decide (c.seq_id = 0 ∧ c.pos < n_keep))
      = ctx.memory.filter (fun c => decide (c.seq_id = 0 ∧ c.pos < n_keep)) ∧
    (∀ (is_eog : Int → Bool) (st st' : State7) (inp : Input7),
      step7 is_eog st inp = some st' → st'.n_keep = st.n_keep) := by
  have hd : 0 ≤ Int.tdiv (n_past - n_keep) 4 := by
    rw [tdiv_four _ (by omega)]
    omega
  have hfr : (handle_kv_cache_overflow ctx n_past n_keep).1.memory.filter
        (fun c => decide (c.seq_id = 0 ∧ c.pos < n_keep))
      = ctx.memory.filter (fun c => decide (c.seq_id = 0 ∧ c.pos < n_keep)) := by
    rw [handle_kv_cache_overflow_memory]
    apply filter_map_filter_frame
    · intro c hc
      rw [pos_in_range_eq n_keep _ c.pos h0 (by omega),
        pos_in_range_eq _ n_past c.pos (by omega) (by omega)]
      simp only [decide_eq_true_eq] at hc
      have e1 : ¬ (n_keep ≤ c.pos ∧ c.pos < n_keep + Int.tdiv (n_past - n_keep) 4) := by omega
      have e2 : ¬ (n_keep + Int.tdiv (n_past - n_keep) 4 ≤ c.pos ∧ c.pos < n_past) := by omega
      rw [decide_eq_false e1, decide_eq_false e2]
      simp
    · intro c _ hc
      rw [pos_in_range_eq _ n_past c.pos (by omega) (by omega)]
      simp only [decide_eq_false_iff_not] at hc
      by_cases hr : c.seq_id = 0 ∧
          (n_keep + Int.tdiv (n_past - n_keep) 4 ≤ c.pos ∧ c.pos < n_past)
      · have : ¬ (c.seq_id = 0 ∧ c.pos + -(Int.tdiv (n_past - n_keep) 4) < n_keep) := by omega
        simp [hr.1, hr.2, this]
      · have hr2 : (decide (c.seq_id = 0) &&
            decide (n_keep + Int.tdiv (n_past - n_keep) 4 ≤ c.pos ∧ c.pos < n_past)) = false := by
          simpa using hr
        rw [hr2]
        simpa using hc
  refine ⟨?_, hfr, step7_n_keep⟩
  intro c hc hs hp
  have hm : c ∈ ctx.memory.filter (fun c => decide (c.seq_id = 0 ∧ c.pos < n_keep)) :=
    List.mem_filter.2 ⟨hc, by simp [hs, hp]⟩
  rw [← hfr] at hm
  exact (List.mem_filter.1 hm).1

/-- Witness of C5 at `n_keep = 10`, `n_past = 100` on the cache holding the
positions `0, ..., 99`: the entry at position 3 is still there. -/
theorem eviction_keeps_kept_cells_witness :
    (0 : Int) ≤ 10 ∧ (10 : Int) ≤ 100 ∧
    ({ pos := 3, seq_id := 0, token := 3 } : KvCell) ∈
      (handle_kv_cache_overflow
        { memory := contiguous_cache 100, decoded := [], calls := [] } 100 10).1.memory :=
  ⟨by decide, by decide,
    (eviction_keeps_kept_cells { memory := contiguous_cache 100, decoded := [], calls := [] }
      100 10 (by decide) (by decide)).1 { pos := 3, seq_id := 0, token := 3 }
      (by decide) rfl (by decide)⟩

/-- C7: eviction renumbers the cache contiguously.  If the resident positions
of sequence 0 are exactly `0, ..., n_past - 1`, each once, and
`0 <= n_keep <= n_past`, then after `handle_kv_cache_overflow` they are exactly
`0, ..., n_past' - 1` for the updated counter `n_past'`, each once; every
surviving entry is found, with its content, at its landing position (and every
entry of sequence 0 found afterwards is such a survivor); and the landing
position is strictly increasing on the surviving positions, so the survivors
keep their relative order. -/
theorem eviction_renumbers_contiguously (ctx : llama_context) (n_past n_keep : Int)
    (h0 : 0 ≤ n_keep) (h1 : n_keep ≤ n_past)
    (hnodup : (resident_positions ctx.memory 0).Nodup)
    (hexact : ∀ p, p ∈ resident_positions ctx.memory 0 ↔ 0 ≤ p ∧ p < n_past) :
    (resident_positions (handle_kv_cache_overflow ctx n_past n_keep).1.memory 0).Nodup ∧
    (∀ p, p ∈ resident_positions (handle_kv_cache_overflow ctx n_past n_keep).1.memory 0 ↔
      0 ≤ p ∧ p < (handle_kv_cache_overflow ctx n_past n_keep).2) ∧
    (∀ a ∈ ctx.memory, a.seq_id = 0 →
      ¬ (n_keep ≤ a.pos ∧ a.pos < n_keep + (n_past - n_keep) / 4) →
      ({ a with pos := landing_pos n_keep ((n_past - n_keep) / 4) a.pos } : KvCell) ∈
        (handle_kv_cache_overflow ctx n_past n_keep).1.memory) ∧
    (∀ b ∈ (handle_kv_cache_overflow ctx n_past n_keep).1.memory, b.seq_id = 0 →
      ∃ a ∈ ctx.memory, a.seq_id = 0 ∧
        ¬ (n_keep ≤ a.pos ∧ a.pos < n_keep + (n_past - n_keep) / 4) ∧
        b = { a with pos := landing_pos n_keep ((n_past - n_keep) / 4) a.pos }) ∧
    (∀ p q : Int, ¬ (n_keep ≤ p ∧ p < n_keep + (n_past - n_keep) / 4) →
      ¬ (n_keep ≤ q ∧ q < n_keep + (n_past - n_keep) / 4) → p < q →
      landing_pos n_keep ((n_past - n_keep) / 4) p
        < landing_pos n_keep ((n_past - n_keep) / 4) q) := by
  have hdiv : Int.tdiv (n_past - n_keep) 4 = (n_past - n_keep) / 4 := tdiv_four _ (by omega)
  have hd : 0 ≤ (n_past - n_keep) / 4 := by omega
  have hle : n_keep + (n_past - n_keep) / 4 ≤ n_past := by omega
  have hmem := handle_kv_cache_overflow_memory ctx n_past n_keep
  have hnp := handle_kv_cache_overflow_n_past ctx n_past n_keep
  rw [hdiv] at hmem hnp
  have hpos := positions_after_overflow ctx.memory n_keep ((n_past - n_keep) / 4) n_past h0 hd hle
  rw [← hmem] at hpos
  refine ⟨?_, ?_, ?_, ?_, ?_⟩
  · rw [hpos]
    exact nodup_after_overflow _ n_keep _ n_past hd hnodup
  · intro p
    rw [hpos, hnp]
    exact mem_after_overflow _ n_keep _ n_past h0 hd hle hexact p
  · intro a ha hs hsurv
    have hin : a.pos ∈ resident_positions ctx.memory 0 :=
      List.mem_map.2 ⟨a, List.mem_filter.2 ⟨ha, by simp [hs]⟩, rfl⟩
    have hrange := (hexact a.pos).1 hin
    rw [hmem]
    refine List.mem_map.2 ⟨a, List.mem_filter.2 ⟨ha, ?_⟩, ?_⟩
    · rw [pos_in_range_eq n_keep _ a.pos h0 (by omega), decide_eq_false hsurv]
      simp
    · rw [pos_in_range_eq _ n_past a.pos (by omega) (by omega)]
      unfold landing_pos
      by_cases hb : n_keep + (n_past - n_keep) / 4 ≤ a.pos
      · have hb2 : n_keep + (n_past - n_keep) / 4 ≤ a.pos ∧ a.pos < n_past := ⟨hb, hrange.2⟩
        rw [decide_eq_true hs, decide_eq_true hb2, if_pos hb]
        rfl
      · have hb2 : ¬ (n_keep + (n_past - n_keep) / 4 ≤ a.pos ∧ a.pos < n_past) :=
          fun h => hb h.1
        rw [decide_eq_false hb2, if_neg hb]
        simp
  · intro b hb hs
    rw [hmem] at hb
    obtain ⟨a, ha, rfl⟩ := List.mem_map.1 hb
    obtain ⟨ha1, ha2⟩ := List.mem_filter.1 ha
    have hsa : a.seq_id = 0 := by
      by_cases hq : (decide (a.seq_id = 0) &&
          pos_in_range (n_keep + (n_past - n_keep) / 4) n_past a.pos) = true
      · simp only [Bool.and_eq_true, decide_eq_true_eq] at hq
        exact hq.1
      · rw [if_neg hq] at hs
        exact hs
    have hin : a.pos ∈ resident_positions ctx.memory 0 :=
      List.mem_map.2 ⟨a, List.mem_filter.2 ⟨ha1, by simp [hsa]⟩, rfl⟩
    have hrange := (hexact a.pos).1 hin
    rw [pos_in_range_eq n_keep _ a.pos h0 (by omega)] at ha2
    have hsurv : ¬ (n_keep ≤ a.pos ∧ a.pos < n_keep + (n_past - n_keep) / 4) := by
      intro h
      rw [decide_eq_true h] at ha2
      simp [hsa] at ha2
    refine ⟨a, ha1, hsa, hsurv, ?_⟩
    rw [pos_in_range_eq _ n_past a.pos (by omega) (by omega)]
    unfold landing_pos
    by_cases hb : n_keep + (n_past - n_keep) / 4 ≤ a.pos
    · have hb2 : n_keep + (n_past - n_keep) / 4 ≤ a.pos ∧ a.pos < n_past := ⟨hb, hrange.2⟩
      rw [decide_eq_true hsa, decide_eq_true hb2, if_pos hb]
      rfl
    · have hb2 : ¬ (n_keep + (n_past - n_keep) / 4 ≤ a.pos ∧ a.pos < n_past) :=
        fun h => hb h.1
      rw [decide_eq_false hb2, if_neg hb]
      simp
  · intro p q hp hq hpq
    unfold landing_pos
    split_ifs <;> omega

/-- Witness of C7 at `n_keep = 10`, `n_past = 100` on the cache holding the
positions `0, ..., 99`: afterwards the resident positions are exactly
`0, ..., 77`, each once (the range `[32, 100)` has landed on `[10, 78)`). -/
theorem eviction_renumbers_contiguously_witness :
    (0 : Int) ≤ 10 ∧ (10 : Int) ≤ 100 ∧
    (resident_positions (contiguous_cache 100) 0).Nodup ∧
    (∀ p, p ∈ resident_positions (contiguous_cache 100) 0 ↔ 0 ≤ p ∧ p < 100) ∧
    (resident_positions (handle_kv_cache_overflow
        { memory := contiguous_cache 100, decoded := [], calls := [] } 100 10).1.memory 0).Nodup ∧
    (∀ p, p ∈ resident_positions (handle_kv_cache_overflow
        { memory := contiguous_cache 100, decoded := [], calls := [] } 100 10).1.memory 0 ↔
      0 ≤ p ∧ p < 78) :=
  ⟨by decide, by decide, contiguous_cache_nodup 100, contiguous_cache_exact 100,
    (eviction_renumbers_contiguously
      { memory := contiguous_cache 100, decoded := [], calls := [] } 100 10
      (by decide) (by decide) (contiguous_cache_nodup 100) (contiguous_cache_exact 100)).1,
    (eviction_renumbers_contiguously
      { memory := contiguous_cache 100, decoded := [], calls := [] } 100 10
      (by decide) (by decide) (contiguous_cache_nodup 100) (contiguous_cache_exact 100)).2.1⟩

/-! ## The shape of a prefill batch -/

/-- C8, as stated, fails: the batch of `src/7` has 256 slots, so the prefill
loop over a user input of 257 tokens does not build a batch of 257 entries: the
257th `common_batch_add` finds the batch full and the program stops.  (The
same program with no user input reaches the prompt for input.) -/
theorem prefill_overflows_batch :
    (1 ≤ (List.replicate 257 (2 : Int)).length) ∧
    prefill_loop (common_batch_clear (llama_batch_init 256)) (List.replicate 257 2) 10 [0]
      = none ∧
    (main7 (fun _ => false) (List.replicate 10 1) 0 []).map (fun s => s.pc)
      = some Pc7.awaiting_input ∧
    main7 (fun _ => false) (List.replicate 10 1) 0 [Input7.user (List.replicate 257 2) 0]
      = none := by
  have hs : main7_start (List.replicate 10 1) 0
      = some { ctx := llama_decode { memory := [], decoded := [], calls := [] }
                 { capacity := 256, entries := prefill_entries (List.replicate 10 1) 0 [0] } 0,
               n_ctx := 256, n_past := 0 + ((List.replicate 10 (1 : Int)).length : Int),
               n_keep := ((List.replicate 10 (1 : Int)).length : Int),
               batch := { capacity := 256,
                          entries := prefill_entries (List.replicate 10 1) 0 [0] },
               pc := if (0 : Int) ≠ 0 then Pc7.exited 1 else Pc7.awaiting_input } := by
    rw [main7_start_eq, if_pos (by rw [List.length_replicate]; decide)]
  refine ⟨by rw [List.length_replicate]; decide, ?_, ?_, ?_⟩
  · rw [prefill_loop_clear, if_neg (by rw [List.length_replicate]; decide)]
  · unfold main7
    rw [hs]
    rfl
  · unfold main7
    rw [hs]
    unfold run7 step7
    simp only [ne_eq, not_true_eq_false, if_false]
    rw [user_turn7_eq, if_neg (by rw [List.length_replicate]; decide)]

/-- C8, amended: for every token list of length `L >= 1` that fits the free
slots of the batch and every starting counter value `c`, the prefill loop
(one add per token with position `n_past++`) appends exactly `L` entries, the
`i`-th carrying token `i`, position `c + i` and the owning sequence id, with
the emit-logits flag set exactly when `i = L - 1`, so that the only emitting
entry among them is the one of the last token, and the counter afterwards is
`c + L` (so `L` for a fresh sequence, `c = 0`).  After a clear the batch built
has exactly these `L` entries.  When the list does not fit, an add fails and no
batch is built.  The batch of `src/7` has 256 slots; the batch of `src/6` has
`tokens_0.size () + tokens_1.size ()` slots, so both of its loops always fit. -/
theorem prefill_batch_shape (batch0 : llama_batch) (toks : List Int) (c : Int)
    (seq_ids : List Int) (w : World6) (hL : 1 ≤ toks.length) :
    (toks.length ≤ batch0.capacity →
      ∃ r, prefill_loop (common_batch_clear batch0) toks c seq_ids = some r ∧
        r.1.capacity = batch0.capacity ∧
        r.1.entries.length = toks.length ∧
        (∀ (i : Nat) (h : i < toks.length),
          r.1.entries[i]?
            = some { token := toks[i], pos := c + (i : Int), seq_id := seq_ids,
                     logits := decide (i = toks.length - 1) }) ∧
        r.1.entries.filter (fun e => e.logits)
          = [{ token := toks.getD (toks.length - 1) 0,
               pos := c + ((toks.length - 1 : Nat) : Int),
               seq_id := seq_ids, logits := true }] ∧
        r.2 = c + (toks.length : Int)) ∧
    (batch0.entries.length + toks.length ≤ batch0.capacity →
      ∃ r, prefill_loop batch0 toks c seq_ids = some r ∧
        r.1.capacity = batch0.capacity ∧
        r.1.entries.take batch0.entries.length = batch0.entries ∧
        r.1.entries.length = batch0.entries.length + toks.length ∧
        (∀ (i : Nat) (h : i < toks.length),
          r.1.entries[batch0.entries.length + i]?
            = some { token := toks[i], pos := c + (i : Int), seq_id := seq_ids,
                     logits := decide (i = toks.length - 1) }) ∧
        (r.1.entries.drop batch0.entries.length).filter (fun e => e.logits)
          = [{ token := toks.getD (toks.length - 1) 0,
               pos := c + ((toks.length - 1 : Nat) : Int),
               seq_id := seq_ids, logits := true }] ∧
        r.2 = c + (toks.length : Int)) ∧
    (batch0.capacity < toks.length →
      prefill_loop (common_batch_clear batch0) toks c seq_ids = none) ∧
    (∃ s, prefill6 w = some s ∧
      s.batch.entries = prefill_entries w.tokens_0 0 [0] ++ prefill_entries w.tokens_1 0 [1] ∧
      s.n0 = 0 + (w.tokens_0.length : Int) ∧ s.n1 = 0 + (w.tokens_1.length : Int)) := by
  refine ⟨?_, ?_, ?_, ?_⟩
  · intro hfit
    rw [prefill_loop_clear, if_pos hfit]
    exact ⟨_, rfl, rfl, prefill_entries_length toks c seq_ids,
      fun i h => prefill_entries_getElem? toks c seq_ids i h,
      prefill_entries_filter_logits toks c seq_ids hL, rfl⟩
  · intro hfit
    rw [prefill_loop_eq _ _ _ _ (by omega), if_pos hfit]
    refine ⟨_, rfl, rfl, ?_, ?_, ?_, ?_, rfl⟩
    · show (batch0.entries ++ prefill_entries toks c seq_ids).take batch0.entries.length
        = batch0.entries
      simp
    · show (batch0.entries ++ prefill_entries toks c seq_ids).length
        = batch0.entries.length + toks.length
      rw [List.length_append, prefill_entries_length]
    · intro i h
      show (batch0.entries ++ prefill_entries toks c seq_ids)[batch0.entries.length + i]? = _
      rw [List.getElem?_append_right (by omega)]
      simp only [Nat.add_sub_cancel_left]
      exact prefill_entries_getElem? toks c seq_ids i h
    · show ((batch0.entries ++ prefill_entries toks c seq_ids).drop
        batch0.entries.length).filter (fun e => e.logits) = _
      rw [List.drop_left]
      exact prefill_entries_filter_logits toks c seq_ids hL
  · intro hbig
    rw [prefill_loop_clear, if_neg (by omega)]
  · rw [prefill6_eq]
    exact ⟨_, rfl, rfl, rfl, rfl⟩

/-- Witness of the amended C8: three tokens prefilled into a fresh sequence
through a cleared batch of 256 slots. -/
theorem prefill_batch_shape_witness :
    1 ≤ [(11 : Int), 12, 13].length ∧
    [(11 : Int), 12, 13].length ≤ (llama_batch_init 256).capacity ∧
    ∃ r, prefill_loop (common_batch_clear (llama_batch_init 256)) [11, 12, 13] 0 [0] = some r ∧
      r.1.entries.length = 3 ∧
      r.1.entries.filter (fun e => e.logits)
        = [{ token := 13, pos := 2, seq_id := [0], logits := true }] ∧
      r.2 = 3 := by
  refine ⟨by decide, by decide, ?_⟩
  obtain ⟨r, h1, -, h3, -, h5, h6⟩ :=
    (prefill_batch_shape (llama_batch_init 256) [11, 12, 13] 0 [0] world6_example
      (by decide)).1 (by decide)
  exact ⟨r, h1, h3, h5, h6⟩

/-! ## The claims on the chat loop of `src/7` -/

theorem main7_some (is_eog : Int → Bool) (prompt_toks : List Int) (decode_ret : Int)
    (inputs : List Input7) (s : State7)
    (h : main7 is_eog prompt_toks decode_ret inputs = some s) :
    ∃ s0, main7_start prompt_toks decode_ret = some s0 ∧ run7 is_eog s0 inputs = some s := by
  unfold main7 at h
  split at h
  · exact absurd h (by simp)
  · rename_i s0 hs0
    exact ⟨s0, hs0, h⟩

/-- C3, as stated, fails: with a system prompt of 3 tokens and a first user
input of 254 tokens (which fits the batch of 256 slots), the overflow check
fires, `handle_kv_cache_overflow` discards `(3 - 3) / 4 = 0` positions, and the
prefill leaves `n_past = 257 > 256 = n_ctx`. -/
theorem n_past_exceeds_n_ctx :
    (main7 (fun _ => false) (List.replicate 3 1) 0 []).map (fun s => s.n_past) = some 3 ∧
    (main7 (fun _ => false) (List.replicate 3 1) 0
      [Input7.user (List.replicate 254 2) 0]).map (fun s => (s.n_keep, s.n_past, s.n_ctx))
      = some (3, 257, 256) ∧
    ¬ ((257 : Int) ≤ 256) := by
  have hs : main7_start (List.replicate 3 1) 0
      = some { ctx := llama_decode { memory := [], decoded := [], calls := [] }
                 { capacity := 256, entries := prefill_entries (List.replicate 3 1) 0 [0] } 0,
               n_ctx := 256, n_past := 0 + ((List.replicate 3 (1 : Int)).length : Int),
               n_keep := ((List.replicate 3 (1 : Int)).length : Int),
               batch := { capacity := 256,
                          entries := prefill_entries (List.replicate 3 1) 0 [0] },
               pc := if (0 : Int) ≠ 0 then Pc7.exited 1 else Pc7.awaiting_input } := by
    rw [main7_start_eq, if_pos (by rw [List.length_replicate]; decide)]
  refine ⟨?_, ?_, by decide⟩
  · unfold main7
    rw [hs]
    rfl
  · unfold main7
    rw [hs]
    unfold run7 step7
    simp only [ne_eq, not_true_eq_false, if_false]
    rw [user_turn7_eq, if_pos (by rw [List.length_replicate]; decide)]
    simp only [run7, Option.map_some', overflow_check_n_past, List.length_replicate]
    rfl

/-- C3, amended: `0 <= n_keep <= n_past` holds at every observable point of
`src/7`, for every system prompt, every sequence of user inputs and sampled
tokens and every decode outcome, with `n_keep` the length of the system prompt
and `n_ctx = 256`; every run whose prompt and user inputs fit the 256 slots of
the batch reaches such a point.  The bound `n_past <= n_ctx` is not maintained
by the code in general: after the system-prompt prefill it holds exactly when
the prompt has at most 256 tokens (a longer prompt does not get through the
prefill); a user-input prefill of `L` tokens ends with `n_past <= n_ctx`
exactly when `n_past + L <= n_ctx` held before it or
`n_past - (n_past - n_keep) / 4 + L <= n_ctx` (C division); a generation step
for a token that is not end-of-generation, entered with
`n_keep <= n_past <= n_ctx` and `n_keep + 4 <= n_ctx`, ends with
`n_past <= n_ctx`. -/
theorem chat_loop_invariant (is_eog : Int → Bool) (prompt_toks : List Int) (decode_ret : Int)
    (inputs : List Input7) (st st' : State7) (toks : List Int) (i : Nat) (id ret : Int) :
    (∀ s, main7 is_eog prompt_toks decode_ret inputs = some s →
      0 ≤ s.n_keep ∧ s.n_keep ≤ s.n_past ∧ s.n_keep = (prompt_toks.length : Int) ∧
      s.n_ctx = 256) ∧
    (prompt_toks.length ≤ 256 →
      (∀ t r, Input7.user t r ∈ inputs → t.length ≤ 256) →
      ∃ s, main7 is_eog prompt_toks decode_ret inputs = some s) ∧
    ((∃ s, main7_start prompt_toks decode_ret = some s ∧ s.n_past ≤ s.n_ctx)
      ↔ prompt_toks.length ≤ 256) ∧
    (∀ s, main7_start prompt_toks decode_ret = some s →
      s.n_past = (prompt_toks.length : Int) ∧ s.n_past ≤ s.n_ctx) ∧
    (user_turn7 st toks ret = some st' →
      (st'.n_past ≤ st.n_ctx ↔
        (st.n_past + (toks.length : Int) ≤ st.n_ctx ∨
          st.n_past - Int.tdiv (st.n_past - st.n_keep) 4 + (toks.length : Int) ≤ st.n_ctx))) ∧
    (toks.length ≤ st.batch.capacity → ∃ s, user_turn7 st toks ret = some s) ∧
    (is_eog id = false → st.n_keep ≤ st.n_past → st.n_past ≤ st.n_ctx →
      st.n_keep + 4 ≤ st.n_ctx → generate_step7 is_eog st i id ret = some st' →
      st'.n_past ≤ st.n_ctx) ∧
    (1 ≤ st.batch.capacity → ∃ s, generate_step7 is_eog st i id ret = some s) := by
  refine ⟨?_, ?_, ?_, ?_, ?_, ?_, ?_, ?_⟩
  · intro s hs
    obtain ⟨s0, h0, hrun⟩ := main7_some is_eog prompt_toks decode_ret inputs s hs
    rw [main7_start_eq] at h0
    have e0 := (ite_some_none_eq h0).2
    subst e0
    obtain ⟨g1, g2, g3⟩ := run7_invariant is_eog inputs _ s hrun (by simp)
    rw [g1, g2]
    refine ⟨by simp, ?_, rfl, rfl⟩
    exact g3
  · intro hfit hin
    unfold main7
    rw [main7_start_eq, if_pos hfit]
    exact run7_total is_eog inputs _ (show (1 : Nat) ≤ 256 by decide) hin
  · rw [main7_start_eq]
    constructor
    · rintro ⟨s, hs, -⟩
      exact (ite_some_none_eq hs).1
    · intro hfit
      rw [if_pos hfit]
      refine ⟨_, rfl, ?_⟩
      show (0 : Int) + (prompt_toks.length : Int) ≤ 256
      omega
  · intro s hs
    rw [main7_start_eq] at hs
    obtain ⟨hfit, e⟩ := ite_some_none_eq hs
    subst e
    refine ⟨by simp, ?_⟩
    show (0 : Int) + (prompt_toks.length : Int) ≤ 256
    omega
  · intro h
    rw [user_turn7_eq] at h
    have e := (ite_some_none_eq h).2
    subst e
    show (overflow_check st.ctx st.n_ctx st.n_past st.n_keep (toks.length : Int)).2
      + (toks.length : Int) ≤ st.n_ctx ↔ _
    rw [overflow_check_n_past]
    split_ifs <;> omega
  · intro hfit
    rw [user_turn7_eq, if_pos hfit]
    exact ⟨_, rfl⟩
  · intro hne hk hp h4 h
    rw [generate_step7_eq is_eog st i id ret hne] at h
    have e := (ite_some_none_eq h).2
    subst e
    show (overflow_check (llama_sampler_sample st.ctx (-1)) st.n_ctx st.n_past st.n_keep 1).2
      + 1 ≤ st.n_ctx
    rw [overflow_check_n_past]
    split_ifs
    · rw [tdiv_four _ (by omega)]
      omega
    · omega
  · intro hcap
    cases he : is_eog id with
    | true =>
      rw [generate_step7_eog_eq is_eog st i id ret he, if_pos hcap]
      exact ⟨_, rfl⟩
    | false =>
      rw [generate_step7_eq is_eog st i id ret he, if_pos hcap]
      exact ⟨_, rfl⟩

/-- Witness of the amended C3: at `n_keep = 10`, `n_past = n_ctx = 256` a
generation step for a token that is not end-of-generation evicts
`(256 - 10) / 4 = 61` positions and ends with `n_past = 196 <= 256`. -/
theorem chat_loop_invariant_witness :
    ∃ s, generate_step7 (fun _ => false)
        { ctx := { memory := [], decoded := [], calls := [] }, n_ctx := 256, n_past := 256,
          n_keep := 10, batch := llama_batch_init 256, pc := Pc7.generating 0 } 0 7 0 = some s ∧
      s.n_past ≤ 256 := by
  obtain ⟨s, hs⟩ := (chat_loop_invariant (fun _ => false) [] 0 []
    { ctx := { memory := [], decoded := [], calls := [] }, n_ctx := 256, n_past := 256,
      n_keep := 10, batch := llama_batch_init 256, pc := Pc7.generating 0 }
    { ctx := { memory := [], decoded := [], calls := [] }, n_ctx := 256, n_past := 256,
      n_keep := 10, batch := llama_batch_init 256, pc := Pc7.generating 0 }
    [] 0 7 0).2.2.2.2.2.2.2 (by decide)
  refine ⟨s, hs, ?_⟩
  exact (chat_loop_invariant (fun _ => false) [] 0 []
    { ctx := { memory := [], decoded := [], calls := [] }, n_ctx := 256, n_past := 256,
      n_keep := 10, batch := llama_batch_init 256, pc := Pc7.generating 0 } s
    [] 0 7 0).2.2.2.2.2.2.1 rfl (by decide) (by decide) (by decide) hs

theorem calls_ok_append (l1 l2 : List BackendCall) (h1 : calls_ok l1) (h2 : calls_ok l2) :
    calls_ok (l1 ++ l2) := by
  intro c hc
  rcases List.mem_append.1 hc with h | h
  · exact h1 c h
  · exact h2 c h

theorem decoded_batches_append (l1 l2 : List BackendCall) :
    decoded_batches (l1 ++ l2) = decoded_batches l1 ++ decoded_batches l2 := by
  induction l1 with
  | nil => rfl
  | cons c l ih =>
    cases c <;> simp [decoded_batches, ih]

theorem routes_ok_prefill (t0 t1 : List Int) (c0 c1 : Int) (h0 : t0 ≠ []) (h1 : t1 ≠ []) :
    output_at (prefill_entries t0 c0 [0] ++ prefill_entries t1 c1 [1]) (-1)
      = some { token := t1.getD (t1.length - 1) 0, pos := c1 + ((t1.length - 1 : Nat) : Int),
               seq_id := [1], logits := true } ∧
    latest_of_seq (prefill_entries t0 c0 [0] ++ prefill_entries t1 c1 [1]) 1
      = some { token := t1.getD (t1.length - 1) 0, pos := c1 + ((t1.length - 1 : Nat) : Int),
               seq_id := [1], logits := true } ∧
    output_at (prefill_entries t0 c0 [0] ++ prefill_entries t1 c1 [1]) (-2)
      = some { token := t0.getD (t0.length - 1) 0, pos := c0 + ((t0.length - 1 : Nat) : Int),
               seq_id := [0], logits := true } ∧
    latest_of_seq (prefill_entries t0 c0 [0] ++ prefill_entries t1 c1 [1]) 0
      = some { token := t0.getD (t0.length - 1) 0, pos := c0 + ((t0.length - 1 : Nat) : Int),
               seq_id := [0], logits := true } := by
  have l0 : 1 ≤ t0.length := by
    cases t0 with
    | nil => exact absurd rfl h0
    | cons a l => simp
  have l1 : 1 ≤ t1.length := by
    cases t1 with
    | nil => exact absurd rfl h1
    | cons a l => simp
  have f0 := prefill_entries_filter_logits t0 c0 [0] l0
  have f1 := prefill_entries_filter_logits t1 c1 [1] l1
  have s0 := prefill_entries_seq t0 c0 [0]
  have s1 := prefill_entries_seq t1 c1 [1]
  have k00 : (prefill_entries t0 c0 [0]).filter (fun e => decide ((0 : Int) ∈ e.seq_id))
      = prefill_entries t0 c0 [0] :=
    List.filter_eq_self.2 (fun e he => by rw [s0 e he]; decide)
  have k01 : (prefill_entries t0 c0 [0]).filter (fun e => decide ((1 : Int) ∈ e.seq_id)) = [] :=
    List.filter_eq_nil_iff.2 (fun e he => by rw [s0 e he]; decide)
  have k10 : (prefill_entries t1 c1 [1]).filter (fun e => decide ((0 : Int) ∈ e.seq_id)) = [] :=
    List.filter_eq_nil_iff.2 (fun e he => by rw [s1 e he]; decide)
  have k11 : (prefill_entries t1 c1 [1]).filter (fun e => decide ((1 : Int) ∈ e.seq_id))
      = prefill_entries t1 c1 [1] :=
    List.filter_eq_self.2 (fun e he => by rw [s1 e he]; decide)
  refine ⟨?_, ?_, ?_, ?_⟩
  · unfold output_at
    simp only [List.filter_append, f0, f1]
    rfl
  · unfold latest_of_seq
    rw [List.filter_append, k01, k11, List.nil_append]
    exact prefill_entries_getLast? t1 c1 [1] l1
  · unfold output_at
    simp only [List.filter_append, f0, f1]
    rfl
  · unfold latest_of_seq
    rw [List.filter_append, k00, k10, List.append_nil]
    exact prefill_entries_getLast? t0 c0 [0] l0

theorem step_batch_routes (tok0 n0 tok1 n1 : Int) :
    output_at [{ token := tok0, pos := n0, seq_id := [0], logits := true },
               { token := tok1, pos := n1, seq_id := [1], logits := true }] (-1)
      = some { token := tok1, pos := n1, seq_id := [1], logits := true } ∧
    latest_of_seq [{ token := tok0, pos := n0, seq_id := [0], logits := true },
                   { token := tok1, pos := n1, seq_id := [1], logits := true }] 1
      = some { token := tok1, pos := n1, seq_id := [1], logits := true } ∧
    output_at [{ token := tok0, pos := n0, seq_id := [0], logits := true },
               { token := tok1, pos := n1, seq_id := [1], logits := true }] (-2)
      = some { token := tok0, pos := n0, seq_id := [0], logits := true } ∧
    latest_of_seq [{ token := tok0, pos := n0, seq_id := [0], logits := true },
                   { token := tok1, pos := n1, seq_id := [1], logits := true }] 0
      = some { token := tok0, pos := n0, seq_id := [0], logits := true } :=
  ⟨rfl, rfl, rfl, rfl⟩

theorem routes_ok_step (tok0 n0 tok1 n1 : Int) :
    routes_ok [{ token := tok0, pos := n0, seq_id := [0], logits := true },
               { token := tok1, pos := n1, seq_id := [1], logits := true }] :=
  ⟨⟨_, (step_batch_routes tok0 n0 tok1 n1).1, (step_batch_routes tok0 n0 tok1 n1).2.1⟩,
   ⟨_, (step_batch_routes tok0 n0 tok1 n1).2.2.1, (step_batch_routes tok0 n0 tok1 n1).2.2.2⟩⟩

theorem decode_step6_adds (st : State6) (hcap : 2 ≤ st.batch.capacity) :
    common_batch_add (common_batch_clear st.batch) st.tok0 st.n0 [0] true
      = some { capacity := st.batch.capacity,
               entries := [{ token := st.tok0, pos := st.n0, seq_id := [0], logits := true }] } ∧
    common_batch_add
        { capacity := st.batch.capacity,
          entries := [{ token := st.tok0, pos := st.n0, seq_id := [0], logits := true }] }
        st.tok1 st.n1 [1] true
      = some { capacity := st.batch.capacity,
               entries := [{ token := st.tok0, pos := st.n0, seq_id := [0], logits := true },
                           { token := st.tok1, pos := st.n1, seq_id := [1], logits := true }] } := by
  constructor
  · rw [common_batch_add_clear, if_pos (by omega)]
  · unfold common_batch_add
    rw [if_pos (by simp; omega)]
    rfl

theorem decode_step6_fail (w : World6) (step : Nat) (st : State6)
    (hcap : 2 ≤ st.batch.capacity) (hret : w.decode_ret (step + 1) ≠ 0) :
    decode_step6 w step st
      = some ({ st with
                ctx := { st.ctx with
                  calls := st.ctx.calls ++
                    [BackendCall.decode
                      [{ token := st.tok0, pos := st.n0, seq_id := [0], logits := true },
                       { token := st.tok1, pos := st.n1, seq_id := [1], logits := true }]
                      (w.decode_ret (step + 1))] },
                n0 := st.n0 + 1, n1 := st.n1 + 1,
                batch := { capacity := st.batch.capacity,
                           entries :=
                             [{ token := st.tok0, pos := st.n0, seq_id := [0], logits := true },
                              { token := st.tok1, pos := st.n1, seq_id := [1],
                                logits := true }] } },
              false) := by
  obtain ⟨a1, a2⟩ := decode_step6_adds st hcap
  simp only [decode_step6, a1, a2, hret, ne_eq, not_false_eq_true, if_true, llama_decode,
    if_false]

theorem decode_step6_ok (w : World6) (step : Nat) (st : State6)
    (hcap : 2 ≤ st.batch.capacity) (hret : w.decode_ret (step + 1) = 0) :
    ∃ r, decode_step6 w step st = some r ∧
      r.1.ctx.calls = st.ctx.calls ++
        [BackendCall.decode
          [{ token := st.tok0, pos := st.n0, seq_id := [0], logits := true },
           { token := st.tok1, pos := st.n1, seq_id := [1], logits := true }] 0,
         BackendCall.sample (-1)
          [{ token := st.tok0, pos := st.n0, seq_id := [0], logits := true },
           { token := st.tok1, pos := st.n1, seq_id := [1], logits := true }],
         BackendCall.sample (-2)
          [{ token := st.tok0, pos := st.n0, seq_id := [0], logits := true },
           { token := st.tok1, pos := st.n1, seq_id := [1], logits := true }]] ∧
      r.1.ctx.decoded
        = [{ token := st.tok0, pos := st.n0, seq_id := [0], logits := true },
           { token := st.tok1, pos := st.n1, seq_id := [1], logits := true }] ∧
      r.1.n0 = st.n0 + 1 ∧ r.1.n1 = st.n1 + 1 ∧
      r.1.tok0 = w.sample (step + 1)
        (some { token := st.tok0, pos := st.n0, seq_id := [0], logits := true }) ∧
      r.1.tok1 = w.sample (step + 1)
        (some { token := st.tok1, pos := st.n1, seq_id := [1], logits := true }) ∧
      r.1.batch = { capacity := st.batch.capacity,
                    entries :=
                      [{ token := st.tok0, pos := st.n0, seq_id := [0], logits := true },
                       { token := st.tok1, pos := st.n1, seq_id := [1], logits := true }] } := by
  obtain ⟨a1, a2⟩ := decode_step6_adds st hcap
  obtain ⟨r1, -, r3, -⟩ := step_batch_routes st.tok0 st.n0 st.tok1 st.n1
  simp only [decode_step6, a1, a2, hret, ne_eq, not_true_eq_false, if_false, llama_decode,
    if_true, llama_sampler_sample, r1, r3]
  exact ⟨_, rfl, by simp, rfl, rfl, rfl, rfl, rfl, rfl⟩

theorem chain_extend (w : World6) (bs : List (List BatchEntry)) (step : Nat)
    (b b' : List BatchEntry)
    (hlen : bs.length = step + 1) (hlast : bs[step]? = some b)
    (hchain : ∀ k x y, bs[k]? = some x → bs[k + 1]? = some y → routed_link w k x y)
    (hlink : routed_link w step b b') :
    ∀ k x y, (bs ++ [b'])[k]? = some x → (bs ++ [b'])[k + 1]? = some y →
      routed_link w k x y := by
  intro k x y hx hy
  by_cases hk : k + 1 < bs.length
  · rw [List.getElem?_append_left (by omega)] at hx
    rw [List.getElem?_append_left hk] at hy
    exact hchain k x y hx hy
  · have hk2 : k + 1 < (bs ++ [b']).length := by
      rcases List.getElem?_eq_some_iff.1 hy with ⟨h, -⟩
      exact h
    rw [List.length_append, List.length_singleton] at hk2
    have hks : k = step := by omega
    subst hks
    rw [List.getElem?_append_left (by omega), hlast] at hx
    rw [List.getElem?_append_right (by omega)] at hy
    have e : k + 1 - bs.length = 0 := by omega
    rw [e] at hy
    simp only [List.getElem?_cons_zero, Option.some.injEq] at hx hy
    subst hx
    subst hy
    exact hlink

theorem record_ok_append_other (w : World6) (calls extra : List BackendCall)
    (h : record_ok w calls) (hx : calls_ok extra) (hd : decoded_batches extra = [])
    (hs : ∀ idx b, BackendCall.sample idx b ∈ extra → BackendCall.decode b 0 ∈ calls) :
    record_ok w (calls ++ extra) := by
  obtain ⟨h1, h2, h3⟩ := h
  refine ⟨calls_ok_append _ _ h1 hx, ?_, ?_⟩
  · intro idx b hb
    rcases List.mem_append.1 hb with hb | hb
    · exact List.mem_append_left _ (h2 idx b hb)
    · exact List.mem_append_left _ (hs idx b hb)
  · rw [decoded_batches_append, hd, List.append_nil]
    exact h3

theorem decode_step6_invariant (w : World6) (step : Nat) (st : State6)
    (h : loop6_inv w step st) :
    ∃ r, decode_step6 w step st = some r ∧ record_ok w r.1.ctx.calls ∧
      (∃ extra, r.1.ctx.calls = st.ctx.calls ++ extra) ∧
      (r.2 = true → loop6_inv w (step + 1) r.1) := by
  obtain ⟨hcap, ⟨hc1, hc2, hc3⟩, hlen, hlast, hdec, e0, e1, he0, he1, ht0, ht1, hn0, hn1⟩ := h
  have hr := routes_ok_step st.tok0 st.n0 st.tok1 st.n1
  have hlink : routed_link w step st.ctx.decoded
      [{ token := st.tok0, pos := st.n0, seq_id := [0], logits := true },
       { token := st.tok1, pos := st.n1, seq_id := [1], logits := true }] :=
    ⟨e0, e1, he0, he1, by rw [ht0, ht1, hn0, hn1]⟩
  by_cases hret : w.decode_ret (step + 1) = 0
  · obtain ⟨r, hr0, rc, rd, rn0, rn1, rt0, rt1, rb⟩ := decode_step6_ok w step st hcap hret
    have hdb : decoded_batches r.1.ctx.calls
        = decoded_batches st.ctx.calls ++
            [[{ token := st.tok0, pos := st.n0, seq_id := [0], logits := true },
              { token := st.tok1, pos := st.n1, seq_id := [1], logits := true }]] := by
      rw [rc, decoded_batches_append]
      rfl
    have hrec : record_ok w r.1.ctx.calls := by
      refine ⟨?_, ?_, ?_⟩
      · rw [rc]
        apply calls_ok_append _ _ hc1
        intro c hc
        simp only [List.mem_cons, List.mem_singleton, List.not_mem_nil, or_false] at hc
        rcases hc with rfl | rfl | rfl
        · exact hr
        · exact ⟨Or.inl rfl, hr⟩
        · exact ⟨Or.inr rfl, hr⟩
      · intro idx b hb
        rw [rc] at hb ⊢
        rcases List.mem_append.1 hb with hb | hb
        · exact List.mem_append_left _ (hc2 idx b hb)
        · apply List.mem_append_right
          simp only [List.mem_cons, List.mem_singleton, List.not_mem_nil, or_false,
            BackendCall.sample.injEq, reduceCtorEq, false_or] at hb
          rcases hb with ⟨_, rfl⟩ | ⟨_, rfl⟩
          · exact List.mem_cons_self _ _
          · exact List.mem_cons_self _ _
      · rw [hdb]
        exact chain_extend w _ step _ _ hlen hlast hc3 hlink
    refine ⟨r, hr0, hrec, ⟨_, rc⟩, ?_⟩
    intro _
    obtain ⟨s1, s2, s3, s4⟩ := step_batch_routes st.tok0 st.n0 st.tok1 st.n1
    refine ⟨by rw [rb]; exact hcap, hrec, ?_, ?_, ?_, ?_⟩
    · rw [hdb, List.length_append, hlen]
      rfl
    · rw [hdb, List.getElem?_append_right (by omega), hlen, rd]
      simp
    · rw [rc, rd]
      apply List.mem_append_right
      exact List.mem_cons_self _ _
    · rw [rd]
      exact ⟨_, _, s4, s2, rt0, rt1, rn0, rn1⟩
  · have hf := decode_step6_fail w step st hcap hret
    refine ⟨_, hf, ?_, ⟨_, rfl⟩, ?_⟩
    · refine ⟨?_, ?_, ?_⟩
      · apply calls_ok_append _ _ hc1
        intro c hc
        simp only [List.mem_singleton] at hc
        subst hc
        exact hr
      · intro idx b hb
        rcases List.mem_append.1 hb with hb | hb
        · exact List.mem_append_left _ (hc2 idx b hb)
        · simp at hb
      · show ∀ k b b', (decoded_batches (st.ctx.calls ++ _))[k]? = some b →
          (decoded_batches (st.ctx.calls ++ _))[k + 1]? = some b' → routed_link w k b b'
        rw [decoded_batches_append]
        exact chain_extend w _ step _ _ hlen hlast hc3 hlink
    · intro hc
      exact absurd hc (by simp)

theorem generate6_invariant (w : World6) (remaining : Nat) :
    ∀ (step : Nat) (st : State6), loop6_inv w step st →
      ∃ s, generate6 w remaining step st = some s ∧ record_ok w s.ctx.calls ∧
        ∃ extra, s.ctx.calls = st.ctx.calls ++ extra := by
  induction remaining with
  | zero =>
    intro step st h
    exact ⟨st, rfl, h.2.1, [], (List.append_nil _).symm⟩
  | succ r ih =>
    intro step st h
    obtain ⟨x, hx, hrec, ⟨ex, hex⟩, hcont⟩ := decode_step6_invariant w step st h
    by_cases hc : x.2 = true
    · obtain ⟨s, hs, hs2, ⟨ex2, hex2⟩⟩ := ih (step + 1) x.1 (hcont hc)
      refine ⟨s, ?_, hs2, ex ++ ex2, ?_⟩
      · simp only [generate6, hx, hc, if_true]
        exact hs
      · rw [hex2, hex, List.append_assoc]
    · refine ⟨x.1, ?_, hrec, ex, hex⟩
      simp only [generate6, hx, hc, Bool.false_eq_true, if_false]

theorem first_sample6_fields (w : World6) (st : State6) :
    (first_sample6 w st).ctx.calls
      = st.ctx.calls ++ [BackendCall.sample (-1) st.ctx.decoded,
                         BackendCall.sample (-2) st.ctx.decoded] ∧
    (first_sample6 w st).ctx.decoded = st.ctx.decoded ∧
    (first_sample6 w st).tok1 = w.sample 0 (output_at st.ctx.decoded (-1)) ∧
    (first_sample6 w st).tok0 = w.sample 0 (output_at st.ctx.decoded (-2)) ∧
    (first_sample6 w st).n0 = st.n0 ∧ (first_sample6 w st).n1 = st.n1 ∧
    (first_sample6 w st).batch = { capacity := 2, entries := [] } := by
  refine ⟨?_, rfl, rfl, rfl, rfl, rfl, rfl⟩
  simp [first_sample6, llama_sampler_sample]

theorem llama_decode_ok (ctx : llama_context) (batch : llama_batch) :
    (llama_decode ctx batch 0).calls = ctx.calls ++ [BackendCall.decode batch.entries 0] ∧
    (llama_decode ctx batch 0).decoded = batch.entries := by
  simp [llama_decode]

theorem main6_record (w : World6) (h0 : w.tokens_0 ≠ []) (h1 : w.tokens_1 ≠ []) :
    ∃ s, main6 w = some s ∧ record_ok w s.ctx.calls ∧
      (decoded_batches s.ctx.calls)[0]?
        = some (prefill_entries w.tokens_0 0 [0] ++ prefill_entries w.tokens_1 0 [1]) := by
  have l0 : 1 ≤ w.tokens_0.length := by
    cases hw : w.tokens_0 with
    | nil => exact absurd hw h0
    | cons a l => simp
  have l1 : 1 ≤ w.tokens_1.length := by
    cases hw : w.tokens_1 with
    | nil => exact absurd hw h1
    | cons a l => simp
  obtain ⟨a, b, c, d⟩ := routes_ok_prefill w.tokens_0 w.tokens_1 0 0 h0 h1
  have hr0 : routes_ok (prefill_entries w.tokens_0 0 [0] ++ prefill_entries w.tokens_1 0 [1]) :=
    ⟨⟨_, a, b⟩, ⟨_, c, d⟩⟩
  unfold main6
  rw [prefill6_eq]
  by_cases hret : w.decode_ret 0 = 0
  · simp only [hret, ne_eq, not_true_eq_false, if_false]
    obtain ⟨fc, fd, ft1, ft0, fn0, fn1, fb⟩ := first_sample6_fields w
        { ctx := llama_decode { memory := [], decoded := [], calls := [] }
            { capacity := w.tokens_0.length + w.tokens_1.length,
              entries := prefill_entries w.tokens_0 0 [0]
                ++ prefill_entries w.tokens_1 0 [1] } 0,
          n0 := 0 + (w.tokens_0.length : Int), n1 := 0 + (w.tokens_1.length : Int),
          tok0 := 0, tok1 := 0,
          batch := { capacity := w.tokens_0.length + w.tokens_1.length,
                     entries := prefill_entries w.tokens_0 0 [0]
                       ++ prefill_entries w.tokens_1 0 [1] },
          exit_code := none }
    obtain ⟨dc, dd⟩ := llama_decode_ok { memory := [], decoded := [], calls := [] }
        { capacity := w.tokens_0.length + w.tokens_1.length,
          entries := prefill_entries w.tokens_0 0 [0] ++ prefill_entries w.tokens_1 0 [1] }
    simp only [dc, dd, List.nil_append, List.cons_append] at fc fd ft1 ft0 fn0 fn1
    have hinv : loop6_inv w 0 (first_sample6 w
        { ctx := llama_decode { memory := [], decoded := [], calls := [] }
            { capacity := w.tokens_0.length + w.tokens_1.length,
              entries := prefill_entries w.tokens_0 0 [0]
                ++ prefill_entries w.tokens_1 0 [1] } 0,
          n0 := 0 + (w.tokens_0.length : Int), n1 := 0 + (w.tokens_1.length : Int),
          tok0 := 0, tok1 := 0,
          batch := { capacity := w.tokens_0.length + w.tokens_1.length,
                     entries := prefill_entries w.tokens_0 0 [0]
                       ++ prefill_entries w.tokens_1 0 [1] },
          exit_code := none }) := by
      unfold loop6_inv
      rw [fc, fd, ft1, ft0, fn0, fn1, fb, a, c]
      refine ⟨le_refl 2, ⟨?_, ?_, ?_⟩, rfl, rfl, List.mem_cons_self _ _, ?_⟩
      · intro x hx
        simp only [List.mem_cons, List.mem_singleton, List.not_mem_nil, or_false] at hx
        rcases hx with rfl | rfl | rfl
        · exact hr0
        · exact ⟨Or.inl rfl, hr0⟩
        · exact ⟨Or.inr rfl, hr0⟩
      · intro idx x hx
        simp only [List.mem_cons, List.mem_singleton, List.not_mem_nil, or_false,
          BackendCall.sample.injEq, reduceCtorEq, false_or] at hx
        rcases hx with ⟨_, rfl⟩ | ⟨_, rfl⟩
        · exact List.mem_cons_self _ _
        · exact List.mem_cons_self _ _
      · intro k x y _ hy
        simp [decoded_batches] at hy
      · refine ⟨_, _, d, b, rfl, rfl, ?_, ?_⟩
        · show (0 : Int) + (w.tokens_0.length : Int)
            = 0 + ((w.tokens_0.length - 1 : Nat) : Int) + 1
          omega
        · show (0 : Int) + (w.tokens_1.length : Int)
            = 0 + ((w.tokens_1.length - 1 : Nat) : Int) + 1
          omega
    obtain ⟨s, hs, hrec, ex, hex⟩ := generate6_invariant w 15 0 _ hinv
    rw [hs]
    refine ⟨_, rfl, ?_, ?_⟩
    · show record_ok w (s.ctx.calls ++ [BackendCall.seq_rm 0 (-1) (-1)]
        ++ [BackendCall.seq_rm 1 (-1) (-1)])
      apply record_ok_append_other
      · apply record_ok_append_other _ _ _ hrec
        · intro x hx
          simp only [List.mem_singleton] at hx
          subst hx
          trivial
        · rfl
        · intro idx x hx
          simp at hx
      · intro x hx
        simp only [List.mem_singleton] at hx
        subst hx
        trivial
      · rfl
      · intro idx x hx
        simp at hx
    · show (decoded_batches (s.ctx.calls ++ [BackendCall.seq_rm 0 (-1) (-1)]
        ++ [BackendCall.seq_rm 1 (-1) (-1)]))[0]? = _
      rw [hex, fc]
      simp [decoded_batches_append, decoded_batches]
  · simp only [hret, ne_eq, not_false_eq_true, if_true, reduceCtorEq]
    refine ⟨_, rfl, ⟨?_, ?_, ?_⟩, ?_⟩
    · intro x hx
      simp only [llama_decode, hret, if_false, List.nil_append, List.mem_singleton] at hx
      subst hx
      exact hr0
    · intro idx x hx
      simp [llama_decode, hret] at hx
    · intro k x y _ hy
      simp [llama_decode, hret, decoded_batches] at hy
    · simp [llama_decode, hret, decoded_batches]

/-- C9: output addressing in the two-sequence program `src/6`.  For every pair
of prompt token lists (each prompt yields at least one token, its latest one),
the program runs to its end and, in its record of backend calls: every batch
submitted, the prefill batch and every decode-step batch, has the latest token
of sequence 1 as its last emitting entry (index `-1`) and the latest token of
sequence 0 as its second-to-last emitting entry (index `-2`); every sampler
call uses index `-1` or `-2` on a batch that was decoded successfully; the
first batch is the prefill batch; and every later batch carries, for sequence 0
and for sequence 1, the token sampled from the output of that same sequence's
latest token in the batch before it, at the next position.  At the first
sampling and in every decode step `tok1` is sampled from the output of the
latest token of sequence 1 and `tok0` from that of sequence 0. -/
theorem two_sequence_routing (w : World6) (step : Nat) (st : State6)
    (h0 : w.tokens_0 ≠ []) (h1 : w.tokens_1 ≠ []) :
    (∃ s, main6 w = some s ∧
      (∀ b ret, BackendCall.decode b ret ∈ s.ctx.calls → routes_ok b) ∧
      (∀ idx b, BackendCall.sample idx b ∈ s.ctx.calls →
        (idx = -1 ∨ idx = -2) ∧ routes_ok b ∧ BackendCall.decode b 0 ∈ s.ctx.calls) ∧
      (decoded_batches s.ctx.calls)[0]?
        = some (prefill_entries w.tokens_0 0 [0] ++ prefill_entries w.tokens_1 0 [1]) ∧
      (∀ k b b', (decoded_batches s.ctx.calls)[k]? = some b →
        (decoded_batches s.ctx.calls)[k + 1]? = some b' → routed_link w k b b')) ∧
    (∃ s0, prefill6 w = some s0 ∧
      output_at s0.batch.entries (-1)
        = some { token := w.tokens_1.getD (w.tokens_1.length - 1) 0,
                 pos := 0 + ((w.tokens_1.length - 1 : Nat) : Int), seq_id := [1],
                 logits := true } ∧
      latest_of_seq s0.batch.entries 1 = output_at s0.batch.entries (-1) ∧
      output_at s0.batch.entries (-2)
        = some { token := w.tokens_0.getD (w.tokens_0.length - 1) 0,
                 pos := 0 + ((w.tokens_0.length - 1 : Nat) : Int), seq_id := [0],
                 logits := true } ∧
      latest_of_seq s0.batch.entries 0 = output_at s0.batch.entries (-2) ∧
      (w.decode_ret 0 = 0 →
        (first_sample6 w s0).tok1 = w.sample 0 (latest_of_seq s0.batch.entries 1) ∧
        (first_sample6 w s0).tok0 = w.sample 0 (latest_of_seq s0.batch.entries 0))) ∧
    (2 ≤ st.batch.capacity →
      ∃ r, decode_step6 w step st = some r ∧
        output_at r.1.batch.entries (-1)
          = some { token := st.tok1, pos := st.n1, seq_id := [1], logits := true } ∧
        latest_of_seq r.1.batch.entries 1 = output_at r.1.batch.entries (-1) ∧
        output_at r.1.batch.entries (-2)
          = some { token := st.tok0, pos := st.n0, seq_id := [0], logits := true } ∧
        latest_of_seq r.1.batch.entries 0 = output_at r.1.batch.entries (-2) ∧
        (w.decode_ret (step + 1) = 0 →
          r.1.tok1 = w.sample (step + 1) (latest_of_seq r.1.batch.entries 1) ∧
          r.1.tok0 = w.sample (step + 1) (latest_of_seq r.1.batch.entries 0))) := by
  obtain ⟨s, hs, ⟨hc1, hc2, hc3⟩, hhead⟩ := main6_record w h0 h1
  obtain ⟨a, b, c, d⟩ := routes_ok_prefill w.tokens_0 w.tokens_1 0 0 h0 h1
  refine ⟨⟨s, hs, ?_, ?_, hhead, hc3⟩, ?_, ?_⟩
  · intro x ret hx
    exact hc1 _ hx
  · intro idx x hx
    have := hc1 _ hx
    exact ⟨this.1, this.2, hc2 idx x hx⟩
  · rw [prefill6_eq]
    refine ⟨_, rfl, a, by rw [a, b], c, by rw [c, d], ?_⟩
    intro hret
    obtain ⟨-, -, ft1, ft0, -, -, -⟩ := first_sample6_fields w
      { ctx := llama_decode { memory := [], decoded := [], calls := [] }
          { capacity := w.tokens_0.length + w.tokens_1.length,
            entries := prefill_entries w.tokens_0 0 [0]
              ++ prefill_entries w.tokens_1 0 [1] } (w.decode_ret 0),
        n0 := 0 + (w.tokens_0.length : Int), n1 := 0 + (w.tokens_1.length : Int),
        tok0 := 0, tok1 := 0,
        batch := { capacity := w.tokens_0.length + w.tokens_1.length,
                   entries := prefill_entries w.tokens_0 0 [0]
                     ++ prefill_entries w.tokens_1 0 [1] },
        exit_code := if w.decode_ret 0 ≠ 0 then some 1 else none }
    rw [ft1, ft0]
    simp only [hret, (llama_decode_ok _ _).2, a, b, c, d, and_self]
  · intro hcap
    obtain ⟨s1, s2, s3, s4⟩ := step_batch_routes st.tok0 st.n0 st.tok1 st.n1
    by_cases hret : w.decode_ret (step + 1) = 0
    · obtain ⟨r, hr0, -, -, -, -, rt0, rt1, rb⟩ := decode_step6_ok w step st hcap hret
      refine ⟨r, hr0, ?_, ?_, ?_, ?_, ?_⟩
      · rw [rb]; exact s1
      · rw [rb]; exact s2.trans s1.symm
      · rw [rb]; exact s3
      · rw [rb]; exact s4.trans s3.symm
      · intro _
        rw [rb]
        exact ⟨by rw [rt1]; exact congrArg _ s2.symm, by rw [rt0]; exact congrArg _ s4.symm⟩
    · rw [decode_step6_fail w step st hcap hret]
      exact ⟨_, rfl, s1, s2.trans s1.symm, s3, s4.trans s3.symm,
        fun h => absurd h hret⟩

/-- Witness of C9: prompts `[1, 2]` and `[3]`; in the prefill batch index `-1`
addresses token `3` of sequence 1 and index `-2` addresses token `2` of
sequence 0. -/
theorem two_sequence_routing_witness :
    world6_example.tokens_0 ≠ [] ∧ world6_example.tokens_1 ≠ [] ∧
    ∃ s0, prefill6 world6_example = some s0 ∧
      output_at s0.batch.entries (-1)
        = some { token := 3, pos := 0, seq_id := [1], logits := true } ∧
      output_at s0.batch.entries (-2)
        = some { token := 2, pos := 1, seq_id := [0], logits := true } := by
  refine ⟨by decide, by decide, ?_⟩
  obtain ⟨s0, e, a, -, c, -, -⟩ :=
    (two_sequence_routing world6_example 0
      { ctx := { memory := [], decoded := [], calls := [] }, n0 := 0, n1 := 0, tok0 := 0,
        tok1 := 0, batch := llama_batch_init 2, exit_code := none }
      (by decide) (by decide)).2.1
  exact ⟨s0, e, a, c⟩

/-- C10, as stated, fails.  In `src/7`, with a system prompt of 3 tokens and a
user input of 2 tokens whose `llama_decode` fails, the program returns with
`n_past = 5`, not the `3` it had before the batch was assembled.  In `src/6`,
when the `llama_decode` of the first generation step fails, `n0` and `n1` are
`2`, not the `1` they had before the batch was assembled. -/
theorem failed_decode_counter_advanced :
    (main7 (fun _ => false) [1, 2, 3] 0 []).map (fun s => s.n_past) = some 3 ∧
    (main7 (fun _ => false) [1, 2, 3] 0 [Input7.user [4, 5] 1]).map (fun s => s.n_past)
      = some 5 ∧
    (main7 (fun _ => false) [1, 2, 3] 0 [Input7.user [4, 5] 1]).map (fun s => s.pc)
      = some (Pc7.exited 1) ∧
    (prefill6 world6_decode_fails).map (fun s => (s.n0, s.n1)) = some (1, 1) ∧
    (main6 world6_decode_fails).map (fun s => (s.n0, s.n1)) = some (2, 2) ∧
    (main6 world6_decode_fails).map (fun s => s.ctx.calls)
      = some
        [BackendCall.decode
          [{ token := 1, pos := 0, seq_id := [0], logits := true },
           { token := 2, pos := 0, seq_id := [1], logits := true }] 0,
         BackendCall.sample (-1)
          [{ token := 1, pos := 0, seq_id := [0], logits := true },
           { token := 2, pos := 0, seq_id := [1], logits := true }],
         BackendCall.sample (-2)
          [{ token := 1, pos := 0, seq_id := [0], logits := true },
           { token := 2, pos := 0, seq_id := [1], logits := true }],
         BackendCall.decode
          [{ token := 7, pos := 1, seq_id := [0], logits := true },
           { token := 7, pos := 1, seq_id := [1], logits := true }] 1,
         BackendCall.seq_rm 0 (-1) (-1),
         BackendCall.seq_rm 1 (-1) (-1)] := by
  decide

/-- C10, amended: in `src/6` and `src/7` the position counters are advanced
while the batch is assembled and are not rolled back.  Whenever a
`llama_decode` whose result is checked reports failure, each counter equals its
value before the batch was assembled plus the number of entries of its sequence
in the batch, and the program submits no further batch: `src/7` returns 1 (at
the system-prompt prefill, the user-input prefill and the generation step for a
token that is not end-of-generation) and takes no further step; `src/6` returns
1 at the prefill and leaves the generation loop at a decode step.  (A decode is
reached only when its batch could be built, that is when the entries fit the
slots of the batch; in `src/6` the prefill batch always does.) -/
theorem failed_decode_stops_program (is_eog : Int → Bool) (prompt_toks : List Int)
    (st : State7) (toks : List Int) (i : Nat) (id ret : Int) (inp : Input7)
    (w : World6) (step remaining : Nat) (s6 : State6) :
    (ret ≠ 0 → prompt_toks.length ≤ 256 →
      ∃ s, main7_start prompt_toks ret = some s ∧ s.pc = Pc7.exited 1 ∧
        s.n_past = 0 + (prompt_toks.length : Int) ∧
        s.ctx.calls = [BackendCall.decode (prefill_entries prompt_toks 0 [0]) ret]) ∧
    (ret ≠ 0 → toks.length ≤ st.batch.capacity →
      ∃ s, user_turn7 st toks ret = some s ∧ s.pc = Pc7.exited 1 ∧
        s.n_past
          = (overflow_check st.ctx st.n_ctx st.n_past st.n_keep (toks.length : Int)).2
              + (toks.length : Int)) ∧
    (ret ≠ 0 → is_eog id = false → 1 ≤ st.batch.capacity →
      ∃ s, generate_step7 is_eog st i id ret = some s ∧ s.pc = Pc7.exited 1 ∧
        s.n_past
          = (overflow_check (llama_sampler_sample st.ctx (-1)) st.n_ctx st.n_past st.n_keep 1).2
              + 1) ∧
    (∀ code, st.pc = Pc7.exited code → step7 is_eog st inp = some st) ∧
    (w.decode_ret 0 ≠ 0 →
      main6 w = prefill6 w ∧
      ∃ s, main6 w = some s ∧ s.exit_code = some 1 ∧
        s.n0 = 0 + (w.tokens_0.length : Int) ∧
        s.n1 = 0 + (w.tokens_1.length : Int)) ∧
    (w.decode_ret (step + 1) ≠ 0 → 2 ≤ s6.batch.capacity →
      ∃ r, decode_step6 w step s6 = some r ∧
        r.1.n0 = s6.n0 + 1 ∧ r.1.n1 = s6.n1 + 1 ∧ r.2 = false ∧
        generate6 w (remaining + 1) step s6 = some r.1) := by
  refine ⟨?_, ?_, ?_, ?_, ?_, ?_⟩
  · intro hret hfit
    rw [main7_start_eq, if_pos hfit]
    refine ⟨_, rfl, by simp [hret], rfl, ?_⟩
    simp [llama_decode_calls]
  · intro hret hfit
    rw [user_turn7_eq, if_pos hfit]
    exact ⟨_, rfl, by simp [hret], rfl⟩
  · intro hret hne hcap
    rw [generate_step7_eq is_eog st i id ret hne, if_pos hcap]
    exact ⟨_, rfl, by simp [hret], rfl⟩
  · intro code hpc
    unfold step7
    rw [hpc]
  · intro hret
    have hm : main6 w = prefill6 w := by
      unfold main6
      rw [prefill6_eq]
      simp [hret]
    refine ⟨hm, ?_⟩
    rw [hm, prefill6_eq]
    exact ⟨_, rfl, by simp [hret], rfl, rfl⟩
  · intro hret hcap
    have hf := decode_step6_fail w step s6 hcap hret
    refine ⟨_, hf, rfl, rfl, rfl, ?_⟩
    simp [generate6, hf]

/-- Witness of the amended C10: a user input of 2 tokens at `n_past = 3` whose
`llama_decode` returns 1 leaves `n_past = 5` and makes `main` return 1. -/
theorem failed_decode_stops_program_witness :
    (1 : Int) ≠ 0 ∧
    [(4 : Int), 5].length ≤ (llama_batch_init 256).capacity ∧
    ∃ s, user_turn7
        { ctx := { memory := [], decoded := [], calls := [] }, n_ctx := 256, n_past := 3,
          n_keep := 3, batch := llama_batch_init 256, pc := Pc7.awaiting_input } [4, 5] 1
        = some s ∧ s.pc = Pc7.exited 1 ∧ s.n_past = 5 := by
  refine ⟨by decide, by decide, ?_⟩
  obtain ⟨s, e, p, n⟩ :=
    (failed_decode_stops_program (fun _ => false) []
      { ctx := { memory := [], decoded := [], calls := [] }, n_ctx := 256, n_past := 3,
        n_keep := 3, batch := llama_batch_init 256, pc := Pc7.awaiting_input } [4, 5] 0 0 1
      (Input7.user [] 0) world6_decode_fails 0 0
      { ctx := { memory := [], decoded := [], calls := [] }, n0 := 0, n1 := 0, tok0 := 0,
        tok1 := 0, batch := llama_batch_init 2, exit_code := none }).2.1
      (by decide) (by decide)
  refine ⟨s, e, p, ?_⟩
  rw [n]
  decide

end LlamaLearn
